import Mathlib

/-!
# FlytePropeller: shard strategies, catalog cache check, AWS secret injection

A shallow embedding of `manager/shard_strategy.go`,
`pkg/controller/nodes/task/pre_post_execution.go` and
`pkg/webhook/aws_secret_manager.go`, and the properties of the key-range partition,
the strategy factory, the pod-spec mutation, the catalog cache check and the secret
injector.

Conventions of the embedding:

* a Go `int` is an `Int` kept in the 64-bit two's-complement range by `wrapInt`
  after every arithmetic operation;
* a Go function that can panic at run time (integer division by zero, slice index
  out of range, `nil` dereference, write to a `nil` map) returns an `Option`, `none`
  standing for the panic;
* a Go `error` is its message, so `(T, error)` becomes `Except String T` when the
  value is `nil` on failure, and a pair with an `Option` otherwise;
* a `*v1.Container` pointing into `pod.Containers` is the index of that element,
  and a write through the pointer is a write at that index;
* a `[]string` is the list of its elements where only its own content matters, and a
  slice of a backing array in a heap of arrays where sharing between slices matters;
* a collaborator behind an interface is given by what its methods return.
-/

namespace Manager

/-! ## Machine integers -/

/-- Reduction of an integer to the range of a 64-bit signed Go `int`,
`[-2^63, 2^63)`; `9223372036854775808 = 2^63` and `18446744073709551616 = 2^64`. -/
def wrapInt (x : Int) : Int :=
  (x + 9223372036854775808) % 18446744073709551616 - 9223372036854775808

/-- Go `a + b` on `int`. -/
def goAdd (a b : Int) : Int := wrapInt (a + b)

/-- Go `a - b` on `int`. -/
def goSub (a b : Int) : Int := wrapInt (a - b)

/-- Go `a * b` on `int`. -/
def goMul (a b : Int) : Int := wrapInt (a * b)

/-- Go `a / b` on `int`: truncated division, a run-time panic when `b` is zero. -/
def goDiv (a b : Int) : Option Int :=
  if b = 0 then none else some (wrapInt (Int.tdiv a b))

/-- Go `a % b` on `int`: remainder of the truncated division, a run-time panic
when `b` is zero. -/
def goMod (a b : Int) : Option Int :=
  if b = 0 then none else some (Int.tmod a b)

/-- Value of `float64(q)` for an integer `q`: exact below `2^53` in magnitude,
otherwise rounded to 53 significant bits, ties to even. The result is again an
integer. -/
def float64OfInt (q : Int) : Int :=
  let n := q.natAbs
  if n < 9007199254740992 then q
  else
    let e := Nat.log2 n - 52
    let m := n / 2 ^ e
    let r := n % 2 ^ e
    let half := 2 ^ (e - 1)
    let m1 := if half < r ∨ (r = half ∧ m % 2 = 1) then m + 1 else m
    Int.sign q * ((m1 * 2 ^ e : Nat) : Int)

/-- Go `int(math.Floor(float64(q)))` for an `int` `q`. The float of an integer is
integer-valued, so `math.Floor` leaves it alone; the conversion back to `int`
is the identity except for the float `2^63`, which amd64 turns into `-2^63`. -/
def floorFloat64 (q : Int) : Int := wrapInt (float64OfInt q)

/-! ## Key ranges -/

/-- The constant `ConsistentHashingKeyspaceSize`. -/
def ConsistentHashingKeyspaceSize : Int := 32

/-- Go `intMin`. -/
def intMin (a b : Int) : Int := if a < b then a else b

/-- Go `intMax`. -/
def intMax (a b : Int) : Int := if a > b then a else b

/-- Go `computeStartKey`. -/
def computeStartKey (keysPerPod keysRemainder podIndex : Int) : Int :=
  goAdd (goMul (intMin podIndex keysRemainder) (goAdd keysPerPod 1))
    (goMul (intMax 0 (goSub podIndex keysRemainder)) keysPerPod)

/-- Go `computeKeyRange`: the pair `[startKey, endKey)` of a pod index; `none`
when one of the two divisions panics. -/
def computeKeyRange (keyspaceSize podCount podIndex : Int) : Option (Int × Int) :=
  match goDiv keyspaceSize podCount with
  | none => none
  | some q =>
    let keysPerPod := floorFloat64 q
    match goMod keyspaceSize keysPerPod with
    | none => none
    | some keyRemainder =>
      some (computeStartKey keysPerPod keyRemainder podIndex,
        computeStartKey keysPerPod keyRemainder (goAdd podIndex 1))

/-! ## The partition formula of the specification -/

/-- The remainder as the specification words it:
`keyspaceSize − keysPerPod * podCount` with `keysPerPod = floor(keyspaceSize / podCount)`. -/
def specRemainder (keyspaceSize podCount : Int) : Int :=
  keyspaceSize - (keyspaceSize / podCount) * podCount

/-- The start key as the specification words it:
`min(i, remainder) * (keysPerPod + 1) + max(0, i − remainder) * keysPerPod`. -/
def specStartKey (keyspaceSize podCount i : Int) : Int :=
  min i (specRemainder keyspaceSize podCount) * (keyspaceSize / podCount + 1)
    + max 0 (i - specRemainder keyspaceSize podCount) * (keyspaceSize / podCount)

/-- The key range as the specification words it:
`KeyRange(i) = [startKey(i), startKey(i+1))`. -/
def specKeyRange (keyspaceSize podCount i : Int) : Int × Int :=
  (specStartKey keyspaceSize podCount i, specStartKey keyspaceSize podCount (i + 1))

/-! ## Configuration and pod specification -/

/-- Modelled from the spec: the type `config.ShardType` lives in the `config`
package; the configuration surface gives it the values `"consistent-hashing"` and
`"namespace"`, and `%s` renders it as that string. -/
abbrev ShardType := String

/-- Modelled from the spec: the constant `config.ConsistentHashingShardType`. -/
def ConsistentHashingShardType : ShardType := "consistent-hashing"

/-- Modelled from the spec: the constant `config.NamespaceShardType`. -/
def NamespaceShardType : ShardType := "namespace"

/-- One element of `ShardConfig.NamespaceReplicas`: the field that
`NewShardStrategy` reads. -/
structure NamespaceConfig where
  Namespaces : List String
deriving DecidableEq, Repr

/-- The fields of `config.ShardConfig` that `NewShardStrategy` reads. -/
structure ShardConfig where
  Type_ : ShardType
  PodCount : Int
  NamespaceReplicas : List NamespaceConfig
deriving DecidableEq, Repr

/-- A `v1.Container`: the two fields the strategies read or write, and two of the
fields they leave alone. -/
structure Container where
  Name : String
  Image : String
  Command : List String
  Args : List String
deriving DecidableEq, Repr

/-- A `v1.PodSpec`: its container list. -/
structure PodSpec where
  Containers : List Container
deriving DecidableEq, Repr

/-! ## Strategies -/

/-- Go `ConsistentHashingShardStrategy`. -/
structure ConsistentHashingShardStrategy where
  podCount : Int
deriving DecidableEq, Repr

/-- Go `NamespaceShardStrategy`. -/
structure NamespaceShardStrategy where
  namespaceReplicas : List (List String)
deriving DecidableEq, Repr

/-- The two implementations of the interface `ShardStrategy`. -/
inductive ShardStrategy where
  | ConsistentHashing (c : ConsistentHashingShardStrategy)
  | Namespace (n : NamespaceShardStrategy)
deriving DecidableEq, Repr

/-- Go `fmt.Sprintf("%d", i)`. -/
def fmtD (i : Int) : String := toString i

/-- The loop over `shardConfig.NamespaceReplicas` in `NewShardStrategy`:
`namespaceReplicas` is the slice built so far. -/
def collectNamespaceReplicas :
    List NamespaceConfig → List (List String) → Except String (List (List String))
  | [], namespaceReplicas => .ok namespaceReplicas
  | namespaceReplica :: rest, namespaceReplicas =>
    if namespaceReplica.Namespaces.length = 0 then
      .error "unable to create namespace replica with 0 configured namespace(s)"
    else
      collectNamespaceReplicas rest (namespaceReplicas ++ [namespaceReplica.Namespaces])

/-- Go `NewShardStrategy`. -/
def NewShardStrategy (shardConfig : ShardConfig) : Except String ShardStrategy :=
  if shardConfig.Type_ = ConsistentHashingShardType then
    if shardConfig.PodCount ≤ 0 then
      .error ("configured PodCount (" ++ fmtD shardConfig.PodCount
        ++ ") must be greater than zero")
    else if shardConfig.PodCount > ConsistentHashingKeyspaceSize then
      .error ("configured PodCount (" ++ fmtD shardConfig.PodCount
        ++ ") is larger than available keyspace size ("
        ++ fmtD ConsistentHashingKeyspaceSize ++ ")")
    else
      .ok (.ConsistentHashing { podCount := shardConfig.PodCount })
  else if shardConfig.Type_ = NamespaceShardType then
    match collectNamespaceReplicas shardConfig.NamespaceReplicas [] with
    | .error err => .error err
    | .ok namespaceReplicas => .ok (.Namespace { namespaceReplicas := namespaceReplicas })
  else
    .error ("shard strategy '" ++ shardConfig.Type_ ++ "' does not exist")

/-- The test of `getFlytePropellerContainer` on one container:
`len(commands) > 0 && commands[0] == "flytepropeller"`. -/
def isFlytePropellerCommand (commands : List String) : Bool :=
  match commands with
  | [] => false
  | first :: _ => first == "flytepropeller"

/-- The loop of `getFlytePropellerContainer` from index `i` on: `rest` is
`pod.Containers[i:]` and `containers` the pointers collected so far. -/
def scanContainers : List Container → Nat → List Nat → List Nat
  | [], _, containers => containers
  | c :: rest, i, containers =>
    scanContainers rest (i + 1)
      (if isFlytePropellerCommand c.Command then containers ++ [i] else containers)

/-- Go `getFlytePropellerContainer`: the index of the container it returns a
pointer to, or the error. -/
def getFlytePropellerContainer (pod : PodSpec) : Except String Nat :=
  match scanContainers pod.Containers 0 [] with
  | [k] => .ok k
  | containers =>
    .error ("expecting 1 flytepropeller container in podtemplate but found "
      ++ fmtD containers.length ++ ", ")

/-- A write through a container pointer, on the values: the container at index `k`
becomes `c`. What the write does to slices that share a backing array with the
arguments of that container is the matter of the pod specification in memory, below. -/
def PodSpec.store (pod : PodSpec) (k : Nat) (c : Container) : PodSpec :=
  { pod with Containers := pod.Containers.set k c }

/-- The loop `for i := startKey; i < endKey; i++` of
`ConsistentHashingShardStrategy.UpdatePodSpec`, from the current `i` on. Since
`i < endKey`, the increment never leaves the range of `int`. -/
def appendShardLabels (container : Container) (i endKey : Int) : Container :=
  if i < endKey then
    appendShardLabels
      { container with
        Args := container.Args ++ ["--propeller.include-shard-label", fmtD i] }
      (i + 1) endKey
  else container
termination_by (endKey - i).toNat
decreasing_by omega

/-- The loop `for _, namespace := range n.namespaceReplicas[podIndex]` of
`NamespaceShardStrategy.UpdatePodSpec`. -/
def appendNamespaceLabels (container : Container) : List String → Container
  | [] => container
  | ns :: rest =>
    appendNamespaceLabels
      { container with
        Args := container.Args ++ ["--propeller.include-namespace-label", ns] }
      rest

/-- Go `ConsistentHashingShardStrategy.GetPodCount`. -/
def ConsistentHashingShardStrategy.GetPodCount (c : ConsistentHashingShardStrategy) :
    Int × Option String :=
  (c.podCount, none)

/-- Go `NamespaceShardStrategy.GetPodCount`. -/
def NamespaceShardStrategy.GetPodCount (n : NamespaceShardStrategy) :
    Int × Option String :=
  ((n.namespaceReplicas.length : Int), none)

/-- Go `ConsistentHashingShardStrategy.UpdatePodSpec`: the pod spec after the call
and the returned error; `none` when the call panics. -/
def ConsistentHashingShardStrategy.UpdatePodSpec (c : ConsistentHashingShardStrategy)
    (pod : PodSpec) (podIndex : Int) : Option (PodSpec × Option String) :=
  match getFlytePropellerContainer pod with
  | .error err => some (pod, some err)
  | .ok k =>
    match pod.Containers[k]? with
    | none => none
    | some container =>
      match computeKeyRange ConsistentHashingKeyspaceSize c.podCount podIndex with
      | none => none
      | some (startKey, endKey) =>
        some (pod.store k (appendShardLabels container startKey endKey), none)

/-- Go `NamespaceShardStrategy.UpdatePodSpec`: the pod spec after the call and the
returned error; `none` when the call panics (index out of range). -/
def NamespaceShardStrategy.UpdatePodSpec (n : NamespaceShardStrategy)
    (pod : PodSpec) (podIndex : Int) : Option (PodSpec × Option String) :=
  match getFlytePropellerContainer pod with
  | .error err => some (pod, some err)
  | .ok k =>
    match pod.Containers[k]? with
    | none => none
    | some container =>
      if podIndex < 0 ∨ (n.namespaceReplicas.length : Int) ≤ podIndex then none
      else
        some (pod.store k
          (appendNamespaceLabels container (n.namespaceReplicas.getD podIndex.toNat [])), none)

/-- Method `GetPodCount` of the interface. -/
def ShardStrategy.GetPodCount : ShardStrategy → Int × Option String
  | .ConsistentHashing c => c.GetPodCount
  | .Namespace n => n.GetPodCount

/-- Method `UpdatePodSpec` of the interface. -/
def ShardStrategy.UpdatePodSpec :
    ShardStrategy → PodSpec → Int → Option (PodSpec × Option String)
  | .ConsistentHashing c => c.UpdatePodSpec
  | .Namespace n => n.UpdatePodSpec

/-- The start key that `computeKeyRange` hands to replica `i` for the keyspace of 32
tokens, written without the reductions to the range of `int`: with
`keysPerPod = 32 / podCount` and `keyRemainder = 32 % keysPerPod`. -/
def startKey32 (podCount i : Int) : Int :=
  min i (32 % (32 / podCount)) * (32 / podCount + 1)
    + max 0 (i - 32 % (32 / podCount)) * (32 / podCount)

/-- The arguments that encode the tokens `startKey, startKey + 1, ..., endKey - 1`
in ascending order: for each token the flag and the decimal rendering of the token. -/
def shardLabelArgs (startKey endKey : Int) : List String :=
  (List.range (endKey - startKey).toNat).flatMap
    (fun j => ["--propeller.include-shard-label", fmtD (startKey + j)])

/-- The arguments that encode a namespace group: for each namespace, in the group's
order, the flag and the namespace. -/
def namespaceLabelArgs (group : List String) : List String :=
  group.flatMap (fun ns => ["--propeller.include-namespace-label", ns])

/-- The arguments that `UpdatePodSpec` of a strategy appends for replica `podIndex`:
the shard labels of its key range, or the namespace labels of its group. -/
def labelArgs : ShardStrategy → Int → List String
  | .ConsistentHashing c, podIndex =>
    shardLabelArgs (startKey32 c.podCount podIndex) (startKey32 c.podCount (podIndex + 1))
  | .Namespace n, podIndex =>
    namespaceLabelArgs (n.namespaceReplicas.getD podIndex.toNat [])

/-! ## Pod specifications in memory

The argument and command lists of a container are Go slices: a pointer into a
backing array, a length and a capacity. `append` writes into the spare capacity of
the backing array when there is room, and two slices can share one array. -/

/-- A Go `[]string`: the backing array it points into, the offset of its first
element in that array, its length and its capacity. -/
structure StringSlice where
  array : Nat
  offset : Nat
  len : Nat
  cap : Nat
deriving DecidableEq, Repr

/-- The string arrays in memory: `cells a i` is element `i` of array `a`, and the
arrays allocated so far are those below `next`. -/
structure Heap where
  cells : Nat → Nat → String
  next : Nat

/-- The elements of a slice. -/
def Heap.read (h : Heap) (s : StringSlice) : List String :=
  (List.range s.len).map (fun i => h.cells s.array (s.offset + i))

/-- Go `append(s, xs...)`: when the capacity suffices the elements are written after
the last element of `s` in its backing array; otherwise a new array is allocated,
`s` is copied into it and the elements follow. The capacity of a new array is chosen
by the runtime: `grow oldCap needed`, and at least what is needed. -/
def Heap.append (grow : Nat → Nat → Nat) (h : Heap) (s : StringSlice) (xs : List String) :
    Heap × StringSlice :=
  if s.len + xs.length ≤ s.cap then
    ({ h with
       cells := fun a i =>
         if a = s.array ∧ s.offset + s.len ≤ i ∧ i < s.offset + s.len + xs.length then
           xs.getD (i - (s.offset + s.len)) ""
         else h.cells a i },
     { s with len := s.len + xs.length })
  else
    ({ cells := fun a i =>
         if a = h.next then
           if i < s.len then h.cells s.array (s.offset + i) else xs.getD (i - s.len) ""
         else h.cells a i
       next := h.next + 1 },
     { array := h.next, offset := 0, len := s.len + xs.length,
       cap := max (s.len + xs.length) (grow s.cap (s.len + xs.length)) })

/-- A `v1.Container` in memory: `Command` and `Args` are slices. -/
structure ContainerInMemory where
  Name : String
  Image : String
  Command : StringSlice
  Args : StringSlice
deriving DecidableEq, Repr

/-- A `v1.PodSpec` in memory. -/
structure PodSpecInMemory where
  Containers : List ContainerInMemory
deriving DecidableEq, Repr

/-- The pod specification that a pod in memory denotes: every slice read out. -/
def PodSpecInMemory.view (h : Heap) (pod : PodSpecInMemory) : PodSpec :=
  { Containers := pod.Containers.map
      (fun c => { Name := c.Name, Image := c.Image,
                  Command := h.read c.Command, Args := h.read c.Args }) }

/-- The loop `for i := startKey; i < endKey; i++` of
`ConsistentHashingShardStrategy.UpdatePodSpec` on the memory: `args` is
`container.Args`. -/
def appendShardLabelsInMemory (grow : Nat → Nat → Nat) (h : Heap) (args : StringSlice)
    (i endKey : Int) : Heap × StringSlice :=
  if i < endKey then
    appendShardLabelsInMemory grow
      (h.append grow args ["--propeller.include-shard-label", fmtD i]).1
      (h.append grow args ["--propeller.include-shard-label", fmtD i]).2
      (i + 1) endKey
  else (h, args)
termination_by (endKey - i).toNat
decreasing_by omega

/-- The loop `for _, namespace := range n.namespaceReplicas[podIndex]` of
`NamespaceShardStrategy.UpdatePodSpec` on the memory: `args` is `container.Args`. -/
def appendNamespaceLabelsInMemory (grow : Nat → Nat → Nat) (h : Heap) (args : StringSlice) :
    List String → Heap × StringSlice
  | [] => (h, args)
  | ns :: rest =>
    appendNamespaceLabelsInMemory grow
      (h.append grow args ["--propeller.include-namespace-label", ns]).1
      (h.append grow args ["--propeller.include-namespace-label", ns]).2
      rest

/-- Go `ConsistentHashingShardStrategy.UpdatePodSpec` on the memory: the memory and
the pod after the call and the returned error; `none` when the call panics. -/
def ConsistentHashingShardStrategy.UpdatePodSpecInMemory (c : ConsistentHashingShardStrategy)
    (grow : Nat → Nat → Nat) (h : Heap) (pod : PodSpecInMemory) (podIndex : Int) :
    Option (Heap × PodSpecInMemory × Option String) :=
  match getFlytePropellerContainer (pod.view h) with
  | .error err => some (h, pod, some err)
  | .ok k =>
    match pod.Containers[k]? with
    | none => none
    | some container =>
      match computeKeyRange ConsistentHashingKeyspaceSize c.podCount podIndex with
      | none => none
      | some (startKey, endKey) =>
        some ((appendShardLabelsInMemory grow h container.Args startKey endKey).1,
          { Containers := pod.Containers.set k
              { container with
                Args := (appendShardLabelsInMemory grow h container.Args startKey endKey).2 } },
          none)

/-- Go `NamespaceShardStrategy.UpdatePodSpec` on the memory: the memory and the pod
after the call and the returned error; `none` when the call panics. -/
def NamespaceShardStrategy.UpdatePodSpecInMemory (n : NamespaceShardStrategy)
    (grow : Nat → Nat → Nat) (h : Heap) (pod : PodSpecInMemory) (podIndex : Int) :
    Option (Heap × PodSpecInMemory × Option String) :=
  match getFlytePropellerContainer (pod.view h) with
  | .error err => some (h, pod, some err)
  | .ok k =>
    match pod.Containers[k]? with
    | none => none
    | some container =>
      if podIndex < 0 ∨ (n.namespaceReplicas.length : Int) ≤ podIndex then none
      else
        some ((appendNamespaceLabelsInMemory grow h container.Args
            (n.namespaceReplicas.getD podIndex.toNat [])).1,
          { Containers := pod.Containers.set k
              { container with
                Args := (appendNamespaceLabelsInMemory grow h container.Args
                  (n.namespaceReplicas.getD podIndex.toNat [])).2 } },
          none)

/-- Method `UpdatePodSpec` of the interface, on the memory. -/
def ShardStrategy.UpdatePodSpecInMemory :
    ShardStrategy → (Nat → Nat → Nat) → Heap → PodSpecInMemory → Int →
      Option (Heap × PodSpecInMemory × Option String)
  | .ConsistentHashing c => c.UpdatePodSpecInMemory
  | .Namespace n => n.UpdatePodSpecInMemory

/-- The memory `h` and the slice `s` come from the memory `h0` and the slice `s0` by
appending the strings `X` to `s0`, in one or several calls of `append`: `s` holds the
elements of `s0` followed by `X`, no array was freed, and among the cells of the arrays
of `h0` only those in the spare capacity of `s0` can have changed. -/
structure AppendedFrom (h0 : Heap) (s0 : StringSlice) (h : Heap) (s : StringSlice)
    (X : List String) : Prop where
  next_le : h0.next ≤ h.next
  allocated : s.array < h.next
  read_eq : h.read s = h0.read s0 ++ X
  frame : ∀ a i, a < h0.next →
    ¬ (a = s0.array ∧ s0.offset + s0.len ≤ i ∧ i < s0.offset + s0.cap) →
    h.cells a i = h0.cells a i
  place : (s.array = s0.array ∧ s.offset = s0.offset ∧ s.cap = s0.cap ∧ s0.len ≤ s.len)
    ∨ h0.next ≤ s.array

/-- A memory with four arrays: the arguments and the command of a sidecar, the command
and the arguments of a flytepropeller container. -/
def separateArraysHeap : Heap :=
  { cells := fun a i =>
      if a = 0 then ["--port", "80"].getD i ""
      else if a = 1 then ["envoy"].getD i ""
      else if a = 2 then ["flytepropeller"].getD i ""
      else if a = 3 then ["--config", "x"].getD i ""
      else ""
    next := 4 }

/-- A pod of a sidecar and a flytepropeller container over `separateArraysHeap`; the
arguments of the flytepropeller container have room for four more strings. -/
def separateArraysPod : PodSpecInMemory :=
  ⟨[⟨"sidecar", "envoy", ⟨1, 0, 1, 1⟩, ⟨0, 0, 2, 2⟩⟩,
    ⟨"propeller", "flytepropeller:v1", ⟨2, 0, 1, 1⟩, ⟨3, 0, 2, 6⟩⟩]⟩

end Manager

namespace Task

/-! ## The catalog cache check -/

/-- A Go `error` of this package: its message and, when the error carries a gRPC
status (so that `status.FromError` succeeds on it), the status code. -/
structure GoError where
  message : String
  grpcCode : Option Nat
deriving DecidableEq, Repr

/-- The gRPC code `codes.NotFound`. -/
def codesNotFound : Nat := 5

/-- `errors.Wrapf(err, message)` of `github.com/pkg/errors`: `nil` when `err` is
`nil`, otherwise an error whose text is the message, a colon and the text of `err`.
The wrapper carries no gRPC status of its own. -/
def errorsWrapf (err : Option GoError) (message : String) : Option GoError :=
  match err with
  | none => none
  | some e => some { message := message ++ ": " ++ e.message, grpcCode := none }

/-- A `core.VariableMap`: the names of its variables. -/
structure VariableMap where
  Variables : List String
deriving DecidableEq, Repr

/-- A `core.TypedInterface`: the field `CheckCatalogCache` reads. -/
structure TypedInterface where
  Outputs : Option VariableMap
deriving DecidableEq, Repr

/-- A `core.TaskMetadata`: the fields `CheckCatalogCache` reads. -/
structure TaskMetadata where
  Discoverable : Bool
  DiscoveryVersion : String
deriving DecidableEq, Repr

/-- A `core.TaskTemplate`: the fields `CheckCatalogCache` reads, each a pointer that
can be `nil`. -/
structure TaskTemplate where
  Id : Option String
  Metadata : Option TaskMetadata
  Interface : Option TypedInterface
deriving DecidableEq, Repr

/-- A `catalog.Key`, without the input reader. -/
structure Key where
  Identifier : String
  CacheVersion : String
  TypedInterface : TypedInterface
deriving DecidableEq, Repr

/-- The counters of `t.metrics` that `CheckCatalogCache` increments. -/
inductive Metric where
  | discoveryMissCount
  | catalogGetFailureCount
  | catalogHitCount
deriving DecidableEq, Repr

/-- Go `Handler.CheckCatalogCache`. The collaborators are given by what they return:
`read` is the result `(tk, err)` of `tr.Read`, `catalogGet` the method `t.catalog.Get`
with a response of type `ρ` that can be `nil`, and `put` the method `outputWriter.Put`.
The result is the returned pair together with the counters incremented, or `none`
when the call panics on a `nil` pointer. Logging is left out. -/
def CheckCatalogCache {ρ : Type} (read : Option TaskTemplate × Option GoError)
    (catalogGet : Key → Option ρ × Option GoError) (put : ρ → Option GoError) :
    Option (Bool × Option GoError × List Metric) :=
  match read with
  | (_, some err) => some (false, some err, [])
  | (none, none) => none
  | (some tk, none) =>
    match tk.Metadata with
    | none => none
    | some metadata =>
      if metadata.Discoverable then
        match tk.Id, tk.Interface with
        | some id, some iface =>
          let key : Key :=
            { Identifier := id, CacheVersion := metadata.DiscoveryVersion,
              TypedInterface := iface }
          match catalogGet key with
          | (_, some err) =>
            if err.grpcCode = some codesNotFound then
              some (false, none, [Metric.discoveryMissCount])
            else
              some (false,
                errorsWrapf (some err) "Failed to check Catalog for previous results",
                [Metric.catalogGetFailureCount])
          | (some resp, none) =>
            let outputsDeclared :=
              match iface.Outputs with
              | some outputs => decide (outputs.Variables.length > 0)
              | none => false
            if outputsDeclared then
              match put resp with
              | some err =>
                some (false,
                  errorsWrapf (some err) "failed to copy cached results for task.",
                  [Metric.catalogHitCount])
              | none => some (true, none, [Metric.catalogHitCount])
            else some (true, none, [Metric.catalogHitCount])
          | (none, none) =>
            some (false,
              errorsWrapf none
                "Nil catalog response. Failed to check Catalog for previous results",
              [Metric.catalogGetFailureCount])
        | _, _ => none
      else some (false, none, [])

end Task

namespace Webhook

/-! ## Functions of the Go standard library -/

/-- Go `strings.TrimRight(s, cutset)`: `s` without its trailing characters that occur
in `cutset`. -/
def stringsTrimRight (s cutset : String) : String :=
  ⟨(s.data.reverse.dropWhile (fun c => cutset.data.contains c)).reverse⟩

/-- Go `strings.TrimLeft(s, cutset)`: `s` without its leading characters that occur in
`cutset`. -/
def stringsTrimLeft (s cutset : String) : String :=
  ⟨s.data.dropWhile (fun c => cutset.data.contains c)⟩

/-- The elements of a path: the runs of characters between its slashes. -/
def splitOnSlash : List Char → List (List Char)
  | [] => [[]]
  | c :: rest =>
    if c = '/' then [] :: splitOnSlash rest
    else
      match splitOnSlash rest with
      | [] => [[c]]
      | element :: elements => (c :: element) :: elements

/-- Elements joined by slashes. -/
def joinWithSlash : List (List Char) → List Char
  | [] => []
  | [element] => element
  | element :: elements => element ++ '/' :: joinWithSlash elements

/-- The loop of Go `filepath.Clean` read element by element: `out` holds the elements
written so far and `dotdot` the number of leading `..` elements among them, below which
a `..` cannot backtrack. Empty elements and `.` are dropped, `..` removes the last
element written, is kept in front of a relative path, and is dropped at the root. -/
def cleanElements (rooted : Bool) :
    List (List Char) → List (List Char) → Nat → List (List Char)
  | [], out, _ => out
  | element :: elements, out, dotdot =>
    if element = [] then cleanElements rooted elements out dotdot
    else if element = ['.'] then cleanElements rooted elements out dotdot
    else if element = ['.', '.'] then
      if out.length > dotdot then cleanElements rooted elements out.dropLast dotdot
      else if rooted then cleanElements rooted elements out dotdot
      else cleanElements rooted elements (out ++ [element]) (out.length + 1)
    else cleanElements rooted elements (out ++ [element]) dotdot

/-- Go `filepath.Clean` on a system whose separator is the slash: the shortest path
equivalent to `path` by lexical processing. -/
def filepathClean (path : String) : String :=
  match path.data with
  | [] => "."
  | c :: rest =>
    if c = '/' then
      ⟨'/' :: joinWithSlash (cleanElements true (splitOnSlash rest) [] 0)⟩
    else
      match cleanElements false (splitOnSlash (c :: rest)) [] 0 with
      | [] => "."
      | out => ⟨joinWithSlash out⟩

/-- Go `filepath.Join`: the elements from the first non-empty one on, joined by
slashes and cleaned; the empty string when every element is empty. -/
def filepathJoin (elem : List String) : String :=
  match elem.dropWhile (fun e => e = "") with
  | [] => ""
  | rest => filepathClean ("/".intercalate rest)

/-! ## The AWS secret manager injector -/

/-- The constant `AWSSecretArnAnnotation`. -/
def AWSSecretArnAnnotation : String := "secrets.k8s.aws/secret-arn"

/-- The constant `AWSSecretMountPathAnnotation`. -/
def AWSSecretMountPathAnnotation : String := "secrets.k8s.aws/mount-path"

/-- The constant `AWSSecretFileNameAnnotation`. -/
def AWSSecretFileNameAnnotation : String := "secrets.k8s.aws/secret-filename"

/-- The variable `AWSSecretMountPathPrefix`, with `os.PathSeparator` the slash. -/
def AWSSecretMountPathPrefix : List String := ["/", "etc", "flyte", "secrets"]

/-- The value `core.Secret_ANY` of the enumeration `core.Secret_MountType`. -/
def Secret_ANY : Int := 0

/-- The value `core.Secret_ENV_VAR`. -/
def Secret_ENV_VAR : Int := 1

/-- The value `core.Secret_FILE`. -/
def Secret_FILE : Int := 2

/-- A `core.Secret`; `MountRequirement` is the number of the enumeration value, which
can be one that has no name. -/
structure Secret where
  Group : String
  GroupVersion : String
  Key : String
  MountRequirement : Int
deriving DecidableEq, Repr

/-- A `corev1.EnvVar`. -/
structure EnvVar where
  Name : String
  Value : String
deriving DecidableEq, Repr

/-- A `corev1.Container`: its name and its environment. -/
structure Container where
  Name : String
  Env : List EnvVar
deriving DecidableEq, Repr

/-- A `corev1.Pod`: the annotation map, `none` when the map is `nil`, and the two
container lists of its spec. A map is the list of its entries, one per key. -/
structure Pod where
  Annotations : Option (List (String × String))
  InitContainers : List Container
  Containers : List Container
deriving DecidableEq, Repr

/-- The declarations that `Inject` uses and that live outside the file: the helper
`UpdateEnvVars` and two constants of the package, the rendering of a secret by `%v`
and the method `String` of the mount type. -/
structure Declarations where
  UpdateEnvVars : List Container → EnvVar → List Container
  SecretPathDefaultDirEnvVar : String
  SecretPathFilePrefixEnvVar : String
  secretString : Secret → String
  mountTypeString : Int → String

/-- Go `m[key]` on a map: the value stored under `key`, if any. -/
def mapGet (m : List (String × String)) (key : String) : Option String :=
  match m with
  | [] => none
  | (k, v) :: rest => if k = key then some v else mapGet rest key

/-- Go `m[key] = value` on a map. -/
def mapSet (m : List (String × String)) (key value : String) : List (String × String) :=
  (key, value) :: m.filter (fun entry => entry.1 ≠ key)

/-- Go `formatAWSSecretArn`. -/
def formatAWSSecretArn (secret : Secret) : String :=
  stringsTrimRight secret.Group ":" ++ ":" ++ stringsTrimLeft secret.Key ":"

/-- Go `formatAWSSecretMount`. -/
def formatAWSSecretMount (secret : Secret) : String :=
  filepathJoin (AWSSecretMountPathPrefix ++ [secret.Group])

/-- What a call of `Inject` leaves behind: the pod `p` after the call, whether the
returned pointer `newP` is `p` (and not `nil`), and the two other results. -/
structure InjectResult where
  pod : Pod
  returnsPod : Bool
  injected : Bool
  err : Option String
deriving DecidableEq, Repr

/-- The loop `for _, envVar := range envVars` of `Inject`. -/
def updateEnvVarsLoop (d : Declarations) (p : Pod) : List EnvVar → Pod
  | [] => p
  | envVar :: rest =>
    updateEnvVarsLoop d
      { p with
        InitContainers := d.UpdateEnvVars p.InitContainers envVar
        Containers := d.UpdateEnvVars p.Containers envVar }
      rest

/-- Go `AWSSecretManagerInjector.Inject`; `none` when the call panics on the
assignment to an entry of a `nil` map. Logging is left out. -/
def Inject (d : Declarations) (secret : Secret) (p : Pod) : Option InjectResult :=
  if secret.Group.length = 0 ∨ secret.Key.length = 0 then
    some { pod := p, returnsPod := false, injected := false,
           err := some ("k8s Secrets Webhook require both key and group to be set. "
             ++ "Secret: [" ++ d.secretString secret ++ "]") }
  else if secret.MountRequirement = Secret_ANY ∨ secret.MountRequirement = Secret_FILE then
    match p.Annotations with
    | none => none
    | some annotations =>
      let a1 := mapSet annotations AWSSecretArnAnnotation (formatAWSSecretArn secret)
      let a2 := mapSet a1 AWSSecretMountPathAnnotation (formatAWSSecretMount secret)
      let a3 := mapSet a2 AWSSecretFileNameAnnotation secret.Key
      let envVars : List EnvVar :=
        [{ Name := d.SecretPathDefaultDirEnvVar,
           Value := filepathJoin AWSSecretMountPathPrefix },
         { Name := d.SecretPathFilePrefixEnvVar, Value := "" }]
      some { pod := updateEnvVarsLoop d { p with Annotations := some a3 } envVars,
             returnsPod := true, injected := true, err := none }
  else
    some { pod := p, returnsPod := true, injected := false,
           err := some ("unrecognized mount requirement ["
             ++ d.mountTypeString secret.MountRequirement ++ "] for secret ["
             ++ secret.Key ++ "]") }

end Webhook

namespace Manager

/-! ## Auxiliary facts -/

/-- A property checked on the naturals below `n` holds of every integer in `[0, n)`. -/
theorem forall_int_of_range {P : Int → Prop} (n : Nat)
    (h : ∀ k ∈ List.range n, P (k : Int)) (x : Int) (h0 : 0 ≤ x) (hn : x < n) : P x := by
  obtain ⟨k, rfl⟩ := Int.eq_ofNat_of_zero_le h0
  exact h k (List.mem_range.mpr (by exact_mod_cast hn))

theorem computeKeyRange_table :
    ∀ p ∈ List.range 33, ∀ i ∈ List.range 33, 1 ≤ (p : Int) →
      computeKeyRange 32 p i = some (startKey32 p i, startKey32 p (i + 1)) := by
  decide!

/-- On the domain of the strategy the reductions to the range of `int` are idle:
`computeKeyRange` returns the pair of consecutive start keys. -/
theorem computeKeyRange_eq (podCount i : Int) (h1 : 1 ≤ podCount) (h32 : podCount ≤ 32)
    (h0 : 0 ≤ i) (hi : i ≤ 32) :
    computeKeyRange 32 podCount i
      = some (startKey32 podCount i, startKey32 podCount (i + 1)) := by
  have hp := forall_int_of_range
    (P := fun p => ∀ i : Int, 0 ≤ i → i < (33 : Nat) → 1 ≤ p →
      computeKeyRange 32 p i = some (startKey32 p i, startKey32 p (i + 1))) 33
    (fun p hp i hi0 hi33 => forall_int_of_range
      (P := fun i => 1 ≤ (p : Int) →
        computeKeyRange 32 p i = some (startKey32 p i, startKey32 p (i + 1))) 33
      (computeKeyRange_table p hp) i hi0 hi33)
  exact hp podCount (by omega) (by omega) i h0 (by omega) h1

theorem startKey32_table :
    ∀ p ∈ List.range 33, ∀ i ∈ List.range 33, 1 ≤ (p : Int) →
      0 ≤ startKey32 p i ∧ startKey32 p i ≤ startKey32 p (i + 1)
        ∧ ((i : Int) < p → startKey32 p (i + 1) ≤ 32) := by
  decide!

/-- Start keys are non-negative, grow with the index and stay within the keyspace
up to the last replica. -/
theorem startKey32_step (podCount i : Int) (h1 : 1 ≤ podCount) (h32 : podCount ≤ 32)
    (h0 : 0 ≤ i) (hi : i ≤ 32) :
    0 ≤ startKey32 podCount i ∧ startKey32 podCount i ≤ startKey32 podCount (i + 1)
      ∧ (i < podCount → startKey32 podCount (i + 1) ≤ 32) := by
  have hp := forall_int_of_range
    (P := fun p => ∀ i : Int, 0 ≤ i → i < (33 : Nat) → 1 ≤ p →
      0 ≤ startKey32 p i ∧ startKey32 p i ≤ startKey32 p (i + 1)
        ∧ (i < p → startKey32 p (i + 1) ≤ 32)) 33
    (fun p hp i hi0 hi33 => forall_int_of_range
      (P := fun i => 1 ≤ (p : Int) →
        0 ≤ startKey32 p i ∧ startKey32 p i ≤ startKey32 p (i + 1)
          ∧ (i < (p : Int) → startKey32 p (i + 1) ≤ 32)) 33
      (startKey32_table p hp) i hi0 hi33)
  exact hp podCount (by omega) (by omega) i h0 (by omega) h1

/-- Start keys are monotone in the replica index. -/
theorem startKey32_mono (podCount : Int) (h1 : 1 ≤ podCount) (h32 : podCount ≤ 32)
    (d : Nat) (i : Int) (h0 : 0 ≤ i) (hi : i + d ≤ 33) :
    startKey32 podCount i ≤ startKey32 podCount (i + d) := by
  induction d with
  | zero => simp
  | succ d ih =>
    have h := (startKey32_step podCount (i + d) h1 h32 (by omega) (by omega)).2.1
    have ih1 := ih (by push_cast at hi; omega)
    have e : i + ((d + 1 : Nat) : Int) = i + d + 1 := by push_cast; ring
    rw [e]
    exact le_trans ih1 h

/-- The loop over the configured groups fails exactly when a group is empty, and
otherwise extends the slice by the namespace lists in their order. -/
theorem collectNamespaceReplicas_eq (l : List NamespaceConfig) (acc : List (List String)) :
    collectNamespaceReplicas l acc
      = if ∃ g ∈ l, g.Namespaces.length = 0 then
          .error "unable to create namespace replica with 0 configured namespace(s)"
        else .ok (acc ++ l.map (fun g => g.Namespaces)) := by
  induction l generalizing acc with
  | nil => simp [collectNamespaceReplicas]
  | cons g rest ih =>
    by_cases hg : g.Namespaces.length = 0
    · rw [collectNamespaceReplicas, if_pos hg, if_pos ⟨g, List.mem_cons_self _ _, hg⟩]
    · rw [collectNamespaceReplicas, if_neg hg, ih]
      by_cases hr : ∃ g2 ∈ rest, g2.Namespaces.length = 0
      · have : ∃ g2 ∈ g :: rest, g2.Namespaces.length = 0 := by
          obtain ⟨g2, hm, h2⟩ := hr
          exact ⟨g2, List.mem_cons_of_mem _ hm, h2⟩
        rw [if_pos hr, if_pos this]
      · have : ¬ ∃ g2 ∈ g :: rest, g2.Namespaces.length = 0 := by
          rintro ⟨g2, hm, h2⟩
          rcases List.mem_cons.mp hm with rfl | hm
          · exact hg h2
          · exact hr ⟨g2, hm, h2⟩
        rw [if_neg hr, if_neg this]
        simp

theorem isFlytePropellerCommand_iff (commands : List String) :
    isFlytePropellerCommand commands = true ↔ commands.head? = some "flytepropeller" := by
  cases commands <;> simp [isFlytePropellerCommand]

theorem countP_isFlytePropeller (l : List Container) :
    l.countP (fun c => isFlytePropellerCommand c.Command)
      = l.countP (fun c => decide (c.Command.head? = some "flytepropeller")) := by
  congr 1
  funext c
  rw [Bool.eq_iff_iff, isFlytePropellerCommand_iff]
  simp

/-- The scan appends to the pointers collected so far the indices, counted from `i`,
of the containers that pass the test, one per such container. -/
theorem scanContainers_spec (l : List Container) (i : Nat) (acc : List Nat) :
    ∃ found : List Nat, scanContainers l i acc = acc ++ found
      ∧ found.length = l.countP (fun c => isFlytePropellerCommand c.Command)
      ∧ ∀ k, k ∈ found ↔
          ∃ j c, k = i + j ∧ l[j]? = some c ∧ isFlytePropellerCommand c.Command = true := by
  induction l generalizing i acc with
  | nil => exact ⟨[], by simp [scanContainers], by simp, by simp⟩
  | cons c rest ih =>
    by_cases hc : isFlytePropellerCommand c.Command = true
    · obtain ⟨found, h1, h2, h3⟩ := ih (i + 1) (acc ++ [i])
      refine ⟨i :: found, ?_, ?_, ?_⟩
      · rw [scanContainers, if_pos hc, h1]; simp
      · rw [List.countP_cons, if_pos hc, List.length_cons, h2]
      · intro k
        rw [List.mem_cons, h3]
        constructor
        · rintro (rfl | ⟨j, c2, hk, hj, hp⟩)
          · exact ⟨0, c, by simp, by simp, hc⟩
          · exact ⟨j + 1, c2, by omega, by simpa using hj, hp⟩
        · rintro ⟨j, c2, hk, hj, hp⟩
          cases j with
          | zero => left; simpa using hk
          | succ j => right; exact ⟨j, c2, by omega, by simpa using hj, hp⟩
    · obtain ⟨found, h1, h2, h3⟩ := ih (i + 1) acc
      refine ⟨found, ?_, ?_, ?_⟩
      · rw [scanContainers, if_neg hc, h1]
      · rw [List.countP_cons, if_neg hc, h2, Nat.add_zero]
      · intro k
        rw [h3]
        constructor
        · rintro ⟨j, c2, hk, hj, hp⟩
          exact ⟨j + 1, c2, by omega, by simpa using hj, hp⟩
        · rintro ⟨j, c2, hk, hj, hp⟩
          cases j with
          | zero =>
            simp only [List.getElem?_cons_zero, Option.some.injEq] at hj
            subst hj
            exact absurd hp hc
          | succ j => exact ⟨j, c2, by omega, by simpa using hj, hp⟩

/-- What `getFlytePropellerContainer` returns, in terms of the number of containers
whose command starts with `flytepropeller`. -/
theorem getFlytePropellerContainer_char (pod : PodSpec) :
    (pod.Containers.countP (fun c => decide (c.Command.head? = some "flytepropeller")) = 1 →
        ∃ k, getFlytePropellerContainer pod = .ok k)
      ∧ (∀ k, getFlytePropellerContainer pod = .ok k →
          pod.Containers.countP (fun c => decide (c.Command.head? = some "flytepropeller")) = 1
            ∧ ∃ c, pod.Containers[k]? = some c ∧ c.Command.head? = some "flytepropeller")
      ∧ (∀ k j c, getFlytePropellerContainer pod = .ok k → pod.Containers[j]? = some c →
          c.Command.head? = some "flytepropeller" → j = k)
      ∧ (pod.Containers.countP (fun c => decide (c.Command.head? = some "flytepropeller")) ≠ 1 →
          getFlytePropellerContainer pod
            = .error ("expecting 1 flytepropeller container in podtemplate but found "
                ++ fmtD (pod.Containers.countP
                    (fun c => decide (c.Command.head? = some "flytepropeller")) : Nat)
                ++ ", ")) := by
  obtain ⟨found, h1, h2, h3⟩ := scanContainers_spec pod.Containers 0 []
  rw [List.nil_append] at h1
  rw [countP_isFlytePropeller] at h2
  rw [← h2]
  unfold getFlytePropellerContainer
  rw [h1]
  match found, h3 with
  | [], _ => simp
  | [k0], h3 =>
    have hk0 := (h3 k0).mp (by simp)
    obtain ⟨j, c, hj, hc, hp⟩ := hk0
    have hj0 : j = k0 := by omega
    subst hj0
    refine ⟨fun _ => ⟨j, rfl⟩, ?_, ?_, fun h => absurd rfl h⟩
    · intro k hk
      simp only [Except.ok.injEq] at hk
      subst hk
      exact ⟨rfl, c, hc, (isFlytePropellerCommand_iff _).mp hp⟩
    · intro k j2 c2 hk hj2 hp2
      simp only [Except.ok.injEq] at hk
      subst hk
      have := (h3 j2).mpr ⟨j2, c2, by omega, hj2, (isFlytePropellerCommand_iff _).mpr hp2⟩
      simpa using this
  | a :: b :: rest, _ => simp

theorem shardLabelArgs_of_not_lt (i endKey : Int) (h : ¬ i < endKey) :
    shardLabelArgs i endKey = [] := by
  have : (endKey - i).toNat = 0 := by omega
  simp [shardLabelArgs, this]

theorem shardLabelArgs_of_lt (i endKey : Int) (h : i < endKey) :
    shardLabelArgs i endKey
      = ["--propeller.include-shard-label", fmtD i] ++ shardLabelArgs (i + 1) endKey := by
  have hn : (endKey - i).toNat = (endKey - (i + 1)).toNat + 1 := by omega
  unfold shardLabelArgs
  rw [hn, List.range_succ_eq_map]
  simp only [List.flatMap_cons, List.flatMap_map, Nat.cast_zero, add_zero]
  congr 1
  congr 1
  funext j
  simp only [Function.comp, Nat.cast_succ]
  congr 2
  ring_nf

theorem shardLabelArgs_length (startKey endKey : Int) :
    (shardLabelArgs startKey endKey).length = 2 * (endKey - startKey).toNat := by
  unfold shardLabelArgs
  generalize (endKey - startKey).toNat = n
  induction n with
  | zero => simp
  | succ n ih =>
    rw [List.range_succ, List.flatMap_append, List.length_append, ih]
    simp
    omega

/-- The loop over the tokens leaves the container as it was, its argument list
extended by the pairs of the tokens `i .. endKey - 1`. -/
theorem appendShardLabels_eq (n : Nat) (container : Container) (i endKey : Int)
    (hn : (endKey - i).toNat = n) :
    appendShardLabels container i endKey
      = { container with Args := container.Args ++ shardLabelArgs i endKey } := by
  induction n generalizing container i with
  | zero =>
    have h : ¬ i < endKey := by omega
    rw [appendShardLabels, if_neg h, shardLabelArgs_of_not_lt i endKey h, List.append_nil]
  | succ n ih =>
    have h : i < endKey := by omega
    rw [appendShardLabels, if_pos h, ih _ (i + 1) (by omega), shardLabelArgs_of_lt i endKey h]
    simp

theorem namespaceLabelArgs_length (group : List String) :
    (namespaceLabelArgs group).length = 2 * group.length := by
  unfold namespaceLabelArgs
  induction group with
  | nil => simp
  | cons ns rest ih =>
    rw [List.flatMap_cons, List.length_append, ih]
    simp
    omega

/-- The loop over a namespace group leaves the container as it was, its argument
list extended by the pairs of the group's namespaces. -/
theorem appendNamespaceLabels_eq (group : List String) (container : Container) :
    appendNamespaceLabels container group
      = { container with Args := container.Args ++ namespaceLabelArgs group } := by
  induction group generalizing container with
  | nil => simp [appendNamespaceLabels, namespaceLabelArgs]
  | cons ns rest ih =>
    rw [appendNamespaceLabels, ih]
    simp [namespaceLabelArgs]

/-- A property checked on the pairs of naturals below `n` and `m` holds of every pair
of integers in `[0, n) × [0, m)`. -/
theorem forall_int2_of_range {P : Int → Int → Prop} (n m : Nat)
    (h : ∀ p ∈ List.range n, ∀ i ∈ List.range m, P (p : Int) (i : Int))
    (x y : Int) (hx0 : 0 ≤ x) (hxn : x < n) (hy0 : 0 ≤ y) (hym : y < m) : P x y :=
  forall_int_of_range (P := fun p => P p y) n
    (fun p hp => forall_int_of_range (P := fun i => P (p : Int) i) m (h p hp) y hy0 hym)
    x hx0 hxn

theorem startKey32_size_table :
    ∀ p ∈ List.range 33, ∀ i ∈ List.range 33, 1 ≤ (p : Int) →
      startKey32 p 0 = 0 ∧ 1 ≤ 32 / (p : Int)
        ∧ (startKey32 p (i + 1) - startKey32 p i = 32 / (p : Int)
            ∨ startKey32 p (i + 1) - startKey32 p i = 32 / (p : Int) + 1) := by
  decide!

/-- The first start key is 0, and every replica receives `keysPerPod` or
`keysPerPod + 1` tokens, `keysPerPod = 32 / podCount` being at least 1. -/
theorem startKey32_size (podCount i : Int) (h1 : 1 ≤ podCount) (h32 : podCount ≤ 32)
    (h0 : 0 ≤ i) (hi : i ≤ 32) :
    startKey32 podCount 0 = 0 ∧ 1 ≤ 32 / podCount
      ∧ (startKey32 podCount (i + 1) - startKey32 podCount i = 32 / podCount
          ∨ startKey32 podCount (i + 1) - startKey32 podCount i = 32 / podCount + 1) :=
  forall_int2_of_range
    (P := fun p i => 1 ≤ p → startKey32 p 0 = 0 ∧ 1 ≤ 32 / p
      ∧ (startKey32 p (i + 1) - startKey32 p i = 32 / p
          ∨ startKey32 p (i + 1) - startKey32 p i = 32 / p + 1))
    33 33 startKey32_size_table podCount i (by omega) (by omega) h0 (by omega) h1

theorem startKey32_total_table :
    ∀ p ∈ List.range 33, 1 ≤ (p : Int) →
      startKey32 p p = p * (32 / (p : Int)) + 32 % (32 / (p : Int))
        ∧ (startKey32 p p = 32 ↔
            (p : Int) = 1 ∨ (p : Int) = 2 ∨ (p : Int) = 3 ∨ (p : Int) = 4 ∨ (p : Int) = 5
              ∨ (p : Int) = 6 ∨ (p : Int) = 8 ∨ (p : Int) = 10 ∨ (p : Int) = 16
              ∨ (p : Int) = 32) := by
  decide!

/-- The start key past the last replica is `podCount * keysPerPod + 32 % keysPerPod`,
and it reaches 32 for ten replica counts only. -/
theorem startKey32_total (podCount : Int) (h1 : 1 ≤ podCount) (h32 : podCount ≤ 32) :
    startKey32 podCount podCount = podCount * (32 / podCount) + 32 % (32 / podCount)
      ∧ (startKey32 podCount podCount = 32 ↔
          podCount = 1 ∨ podCount = 2 ∨ podCount = 3 ∨ podCount = 4 ∨ podCount = 5
            ∨ podCount = 6 ∨ podCount = 8 ∨ podCount = 10 ∨ podCount = 16
            ∨ podCount = 32) :=
  forall_int_of_range
    (P := fun p => 1 ≤ p →
      startKey32 p p = p * (32 / p) + 32 % (32 / p)
        ∧ (startKey32 p p = 32 ↔
            p = 1 ∨ p = 2 ∨ p = 3 ∨ p = 4 ∨ p = 5 ∨ p = 6 ∨ p = 8 ∨ p = 10 ∨ p = 16
              ∨ p = 32))
    33 startKey32_total_table podCount (by omega) (by omega) h1

/-- A token below the start key of replica `n` lies in the range of a replica before
`n`. -/
theorem exists_replica_of_lt_startKey32 (podCount : Int) (h1 : 1 ≤ podCount)
    (h32 : podCount ≤ 32) (t : Int) (ht : 0 ≤ t) (n : Nat) (hn : (n : Int) ≤ podCount)
    (hlt : t < startKey32 podCount n) :
    ∃ i : Int, 0 ≤ i ∧ i < n ∧ startKey32 podCount i ≤ t ∧ t < startKey32 podCount (i + 1) := by
  induction n with
  | zero =>
    have h := (startKey32_size podCount 0 h1 h32 (le_refl 0) (by norm_num)).1
    simp only [Nat.cast_zero] at hlt
    omega
  | succ n ih =>
    by_cases hc : t < startKey32 podCount n
    · obtain ⟨i, hi0, hin, hs, he⟩ := ih (by push_cast at hn; omega) hc
      exact ⟨i, hi0, by push_cast; omega, hs, he⟩
    · push_cast at hlt
      exact ⟨n, by omega, by push_cast; omega, by omega, hlt⟩

/-- The tokens owned by some replica are those below the start key past the last
replica. -/
theorem owned_iff_lt_startKey32 (podCount : Int) (h1 : 1 ≤ podCount) (h32 : podCount ≤ 32)
    (t : Int) :
    (∃ i : Int, 0 ≤ i ∧ i < podCount ∧
        ∃ s e : Int, computeKeyRange 32 podCount i = some (s, e) ∧ s ≤ t ∧ t < e)
      ↔ (0 ≤ t ∧ t < startKey32 podCount podCount) := by
  constructor
  · rintro ⟨i, h0, hi, s, e, h, hs, he⟩
    rw [computeKeyRange_eq podCount i h1 h32 h0 (by omega)] at h
    simp only [Option.some.injEq, Prod.mk.injEq] at h
    obtain ⟨rfl, rfl⟩ := h
    have hst := (startKey32_step podCount i h1 h32 h0 (by omega)).1
    have hm := startKey32_mono podCount h1 h32 (podCount - (i + 1)).toNat (i + 1)
      (by omega) (by omega)
    have e1 : i + 1 + ((podCount - (i + 1)).toNat : Int) = podCount := by omega
    rw [e1] at hm
    omega
  · rintro ⟨h0, hlt⟩
    obtain ⟨n, rfl⟩ := Int.eq_ofNat_of_zero_le (by omega : 0 ≤ podCount)
    obtain ⟨i, hi0, hin, hs, he⟩ :=
      exists_replica_of_lt_startKey32 n h1 h32 t h0 n (le_refl _) hlt
    exact ⟨i, hi0, hin, _, _, computeKeyRange_eq n i h1 h32 hi0 (by omega), hs, he⟩

/-- What an accepted configuration looks like, and the strategy made from it. -/
theorem newShardStrategy_ok_cases (cfg : ShardConfig) (st : ShardStrategy)
    (h : NewShardStrategy cfg = .ok st) :
    (cfg.Type_ = ConsistentHashingShardType ∧ 1 ≤ cfg.PodCount ∧ cfg.PodCount ≤ 32
        ∧ st = .ConsistentHashing { podCount := cfg.PodCount })
      ∨ (cfg.Type_ = NamespaceShardType
        ∧ (∀ g ∈ cfg.NamespaceReplicas, g.Namespaces.length ≠ 0)
        ∧ st = .Namespace
            { namespaceReplicas := cfg.NamespaceReplicas.map (fun g => g.Namespaces) }) := by
  unfold NewShardStrategy at h
  by_cases hT : cfg.Type_ = ConsistentHashingShardType
  · rw [if_pos hT] at h
    by_cases h0 : cfg.PodCount ≤ 0
    · rw [if_pos h0] at h; cases h
    · rw [if_neg h0] at h
      by_cases h32 : cfg.PodCount > ConsistentHashingKeyspaceSize
      · rw [if_pos h32] at h; cases h
      · rw [if_neg h32] at h
        simp only [Except.ok.injEq] at h
        unfold ConsistentHashingKeyspaceSize at h32
        exact Or.inl ⟨hT, by omega, by omega, h.symm⟩
  · rw [if_neg hT] at h
    by_cases hN : cfg.Type_ = NamespaceShardType
    · rw [if_pos hN, collectNamespaceReplicas_eq] at h
      by_cases hg : ∃ g ∈ cfg.NamespaceReplicas, g.Namespaces.length = 0
      · rw [if_pos hg] at h; cases h
      · rw [if_neg hg] at h
        simp only [List.nil_append, Except.ok.injEq] at h
        refine Or.inr ⟨hN, fun g hm h0 => hg ⟨g, hm, h0⟩, h.symm⟩
    · rw [if_neg hN] at h; cases h

/-- Replacing a container by one with the same command keeps the number of
flytepropeller containers. -/
theorem countP_set_same_command (l : List Container) (k : Nat) (c c2 : Container)
    (hk : l[k]? = some c) (hc : c2.Command = c.Command) :
    (l.set k c2).countP (fun x => decide (x.Command.head? = some "flytepropeller"))
      = l.countP (fun x => decide (x.Command.head? = some "flytepropeller")) := by
  induction l generalizing k with
  | nil => simp
  | cons a rest ih =>
    cases k with
    | zero =>
      simp only [List.getElem?_cons_zero, Option.some.injEq] at hk
      subst hk
      simp only [List.set_cons_zero, List.countP_cons, hc]
    | succ k =>
      simp only [List.getElem?_cons_succ] at hk
      simp only [List.set_cons_succ, List.countP_cons, ih k hk]

/-- A pod spec with exactly one flytepropeller container, found at index `k`, makes
`getFlytePropellerContainer` return `k`. -/
theorem getFlytePropellerContainer_of_one (pod : PodSpec) (k : Nat) (container : Container)
    (hone : pod.Containers.countP
      (fun x => decide (x.Command.head? = some "flytepropeller")) = 1)
    (hk : pod.Containers[k]? = some container)
    (hfp : container.Command.head? = some "flytepropeller") :
    getFlytePropellerContainer pod = .ok k := by
  obtain ⟨g1, _, g3, _⟩ := getFlytePropellerContainer_char pod
  obtain ⟨k0, hk0⟩ := g1 hone
  have hkk : k = k0 := g3 k0 k container hk0 hk hfp
  rw [hkk]
  exact hk0

/-- When the container lookup returns index `k`, `UpdatePodSpec` of a strategy made by
the factory, at a replica index below its pod count, writes at index `k` the container
with its arguments extended by the labels of the replica. -/
theorem updatePodSpec_of_ok (cfg : ShardConfig) (st : ShardStrategy)
    (hst : NewShardStrategy cfg = .ok st) (pod : PodSpec) (podIndex : Int)
    (h0 : 0 ≤ podIndex) (hi : podIndex < st.GetPodCount.1)
    (k : Nat) (container : Container)
    (hget : getFlytePropellerContainer pod = .ok k)
    (hk : pod.Containers[k]? = some container) :
    st.UpdatePodSpec pod podIndex
      = some ({ Containers := pod.Containers.set k
                  { container with Args := container.Args ++ labelArgs st podIndex } },
          none) := by
  rcases newShardStrategy_ok_cases cfg st hst with ⟨_, h1, h32, rfl⟩ | ⟨_, _, rfl⟩
  · simp only [ShardStrategy.GetPodCount, ConsistentHashingShardStrategy.GetPodCount] at hi
    have hr := computeKeyRange_eq cfg.PodCount podIndex h1 h32 h0 (by omega)
    simp only [ShardStrategy.UpdatePodSpec, ConsistentHashingShardStrategy.UpdatePodSpec,
      hget, hk, ConsistentHashingKeyspaceSize, hr]
    rw [appendShardLabels_eq _ _ _ _ rfl]
    rfl
  · simp only [ShardStrategy.GetPodCount, NamespaceShardStrategy.GetPodCount] at hi
    have hcond : ¬ (podIndex < 0
        ∨ ((cfg.NamespaceReplicas.map (fun g => g.Namespaces)).length : Int) ≤ podIndex) := by
      omega
    simp only [ShardStrategy.UpdatePodSpec, NamespaceShardStrategy.UpdatePodSpec,
      hget, hk, if_neg hcond]
    rw [appendNamespaceLabels_eq]
    rfl

/-- A strategy made by the factory appends at least one label pair for every replica
index below its pod count. -/
theorem labelArgs_ne_nil (cfg : ShardConfig) (st : ShardStrategy)
    (hst : NewShardStrategy cfg = .ok st) (podIndex : Int)
    (h0 : 0 ≤ podIndex) (hi : podIndex < st.GetPodCount.1) :
    labelArgs st podIndex ≠ [] := by
  intro hnil
  have hlen := congrArg List.length hnil
  rcases newShardStrategy_ok_cases cfg st hst with ⟨_, h1, h32, rfl⟩ | ⟨_, hg, rfl⟩
  · simp only [ShardStrategy.GetPodCount, ConsistentHashingShardStrategy.GetPodCount] at hi
    simp only [labelArgs, shardLabelArgs_length, List.length_nil] at hlen
    have hs := startKey32_size cfg.PodCount podIndex h1 h32 h0 (by omega)
    omega
  · simp only [ShardStrategy.GetPodCount, NamespaceShardStrategy.GetPodCount,
      List.length_map] at hi
    have hlt : podIndex.toNat < cfg.NamespaceReplicas.length := by omega
    simp only [labelArgs, namespaceLabelArgs_length, List.length_nil] at hlen
    rw [List.getD_eq_getElem _ _ (by simpa using hlt)] at hlen
    simp only [List.getElem_map] at hlen
    have := hg _ (List.getElem_mem hlt)
    omega

/-- What `computeKeyRange` computes on the way for the keyspace of 32 tokens and a
replica count of `1..32`: both divisions succeed and `keysPerPod` is at least 1. -/
theorem keysPerPod_table :
    ∀ p ∈ List.range 33, 1 ≤ (p : Int) →
      goDiv 32 p = some (32 / (p : Int)) ∧ floorFloat64 (32 / (p : Int)) = 32 / (p : Int)
        ∧ 1 ≤ 32 / (p : Int)
        ∧ goMod 32 (32 / (p : Int)) = some (32 % (32 / (p : Int))) := by
  decide!

theorem keysPerPod_facts (podCount : Int) (h1 : 1 ≤ podCount) (h32 : podCount ≤ 32) :
    goDiv 32 podCount = some (32 / podCount) ∧ floorFloat64 (32 / podCount) = 32 / podCount
      ∧ 1 ≤ 32 / podCount
      ∧ goMod 32 (32 / podCount) = some (32 % (32 / podCount)) :=
  forall_int_of_range
    (P := fun p => 1 ≤ p → goDiv 32 p = some (32 / p) ∧ floorFloat64 (32 / p) = 32 / p
      ∧ 1 ≤ 32 / p ∧ goMod 32 (32 / p) = some (32 % (32 / p)))
    33 keysPerPod_table podCount (by omega) (by omega) h1

/-- Reading `m` cells that agree with `f` and then the elements of `xs` gives the
list read by `f` followed by `xs`. -/
theorem map_range_add_eq_append (f g : Nat → String) (m : Nat) (xs : List String)
    (h1 : ∀ i, i < m → g i = f i)
    (h2 : ∀ i, i < xs.length → g (m + i) = xs.getD i "") :
    (List.range (m + xs.length)).map g = (List.range m).map f ++ xs := by
  rw [List.range_add, List.map_append, List.map_map]
  congr 1
  · apply List.map_congr_left
    intro i hi
    exact h1 i (List.mem_range.mp hi)
  · apply List.ext_getElem
    · simp
    · intro n hn1 hn2
      simp only [List.getElem_map, List.getElem_range, Function.comp]
      rw [h2 n hn2, List.getD_eq_getElem _ _ hn2]

/-- What one `append` does: the result holds the old elements followed by the new ones,
stays a slice of an allocated array, and the only cells of the arrays allocated before
that can differ afterwards lie in the spare capacity of the slice. The result is
either the same slice made longer or a slice of a new array. -/
theorem Heap.append_spec (grow : Nat → Nat → Nat) (h : Heap) (s : StringSlice)
    (xs : List String) (ha : s.array < h.next) :
    h.next ≤ (h.append grow s xs).1.next
      ∧ (h.append grow s xs).2.array < (h.append grow s xs).1.next
      ∧ (h.append grow s xs).2.len ≤ (h.append grow s xs).2.cap
      ∧ (h.append grow s xs).1.read (h.append grow s xs).2 = h.read s ++ xs
      ∧ (∀ a i, a < h.next →
          ¬ (a = s.array ∧ s.offset + s.len ≤ i ∧ i < s.offset + s.cap) →
          (h.append grow s xs).1.cells a i = h.cells a i)
      ∧ (((h.append grow s xs).2.array = s.array ∧ (h.append grow s xs).2.offset = s.offset
            ∧ (h.append grow s xs).2.cap = s.cap ∧ s.len ≤ (h.append grow s xs).2.len)
          ∨ h.next ≤ (h.append grow s xs).2.array) := by
  unfold Heap.append
  by_cases hc : s.len + xs.length ≤ s.cap
  · rw [if_pos hc]
    refine ⟨le_refl _, ha, hc, ?_, ?_, Or.inl ⟨rfl, rfl, rfl, Nat.le_add_right _ _⟩⟩
    · unfold Heap.read
      apply map_range_add_eq_append
      · intro i hi
        dsimp only
        split_ifs with hh
        · omega
        · rfl
      · intro i hi
        dsimp only
        split_ifs with hh
        · congr 1
          omega
        · exfalso
          apply hh
          refine ⟨?_, ?_, ?_⟩ <;> first | rfl | trivial | omega
    · intro a i _ hn
      dsimp only
      split_ifs with hh
      · omega
      · rfl
  · rw [if_neg hc]
    refine ⟨Nat.le_succ _, Nat.lt_succ_self _, le_max_left _ _, ?_, ?_, Or.inr (le_refl _)⟩
    · unfold Heap.read
      apply map_range_add_eq_append
      · intro i hi
        dsimp only
        split_ifs with h1 h2
        · simp
        · omega
        · exact absurd rfl h1
      · intro i hi
        dsimp only
        split_ifs with h1 h2
        · omega
        · congr 1
          omega
        · exact absurd rfl h1
    · intro a i hlt _
      dsimp only
      split_ifs with hh
      · omega
      · omega
      · rfl

theorem AppendedFrom.start (h0 : Heap) (s0 : StringSlice) (ha : s0.array < h0.next) :
    AppendedFrom h0 s0 h0 s0 [] :=
  { next_le := le_refl _
    allocated := ha
    read_eq := (List.append_nil _).symm
    frame := fun _ _ _ _ => rfl
    place := Or.inl ⟨rfl, rfl, rfl, le_refl _⟩ }

/-- One more `append` keeps the relation. -/
theorem AppendedFrom.step (grow : Nat → Nat → Nat) {h0 h : Heap} {s0 s : StringSlice}
    {X : List String} (inv : AppendedFrom h0 s0 h s X) (xs : List String) :
    AppendedFrom h0 s0 (h.append grow s xs).1 (h.append grow s xs).2 (X ++ xs) := by
  obtain ⟨a1, a2, _, a4, a5, a6⟩ := Heap.append_spec grow h s xs inv.allocated
  refine ⟨le_trans inv.next_le a1, a2, ?_, ?_, ?_⟩
  · rw [a4, inv.read_eq, List.append_assoc]
  · intro a i ha hn
    rw [← inv.frame a i ha hn]
    apply a5 a i (lt_of_lt_of_le ha inv.next_le)
    rcases inv.place with ⟨p1, p2, p3, p4⟩ | p
    · rw [p1, p2, p3]
      omega
    · omega
  · rcases a6 with ⟨q1, q2, q3, q4⟩ | q
    · rcases inv.place with ⟨p1, p2, p3, p4⟩ | p
      · exact Or.inl ⟨q1.trans p1, q2.trans p2, q3.trans p3, le_trans p4 q4⟩
      · exact Or.inr (by omega)
    · exact Or.inr (le_trans inv.next_le q)

/-- The loop over a namespace group appends the labels of the group. -/
theorem appendNamespaceLabelsInMemory_spec (grow : Nat → Nat → Nat) (group : List String)
    {h0 h : Heap} {s0 s : StringSlice} {X : List String} (inv : AppendedFrom h0 s0 h s X) :
    AppendedFrom h0 s0 (appendNamespaceLabelsInMemory grow h s group).1
      (appendNamespaceLabelsInMemory grow h s group).2 (X ++ namespaceLabelArgs group) := by
  induction group generalizing h s X with
  | nil => simpa [appendNamespaceLabelsInMemory, namespaceLabelArgs] using inv
  | cons ns rest ih =>
    rw [appendNamespaceLabelsInMemory]
    have h2 := ih (inv.step grow ["--propeller.include-namespace-label", ns])
    have e : X ++ namespaceLabelArgs (ns :: rest)
        = X ++ ["--propeller.include-namespace-label", ns] ++ namespaceLabelArgs rest := by
      simp [namespaceLabelArgs]
    rw [e]
    exact h2

/-- The loop over the tokens appends the labels of the tokens `i .. endKey - 1`. -/
theorem appendShardLabelsInMemory_spec (grow : Nat → Nat → Nat) (n : Nat) (i endKey : Int)
    (hn : (endKey - i).toNat = n)
    {h0 h : Heap} {s0 s : StringSlice} {X : List String} (inv : AppendedFrom h0 s0 h s X) :
    AppendedFrom h0 s0 (appendShardLabelsInMemory grow h s i endKey).1
      (appendShardLabelsInMemory grow h s i endKey).2 (X ++ shardLabelArgs i endKey) := by
  induction n generalizing h s X i with
  | zero =>
    have hlt : ¬ i < endKey := by omega
    rw [appendShardLabelsInMemory, if_neg hlt, shardLabelArgs_of_not_lt i endKey hlt,
      List.append_nil]
    exact inv
  | succ n ih =>
    have hlt : i < endKey := by omega
    rw [appendShardLabelsInMemory, if_pos hlt, shardLabelArgs_of_lt i endKey hlt,
      ← List.append_assoc]
    exact ih (i + 1) (by omega) (inv.step grow ["--propeller.include-shard-label", fmtD i])

/-- A slice that does not reach into the spare capacity of `s0` reads as before. -/
theorem AppendedFrom.read_of_disjoint {h0 h : Heap} {s0 s : StringSlice} {X : List String}
    (inv : AppendedFrom h0 s0 h s X) (t : StringSlice) (ht : t.array < h0.next)
    (hd : t.array ≠ s0.array ∨ t.offset + t.len ≤ s0.offset + s0.len
      ∨ s0.offset + s0.cap ≤ t.offset) :
    h.read t = h0.read t := by
  unfold Heap.read
  apply List.map_congr_left
  intro i hi
  have hi2 := List.mem_range.mp hi
  apply inv.frame _ _ ht
  omega

theorem view_getElem? (h : Heap) (pod : PodSpecInMemory) (k : Nat) :
    (pod.view h).Containers[k]?
      = (pod.Containers[k]?).map
          (fun c => { Name := c.Name, Image := c.Image,
                      Command := h.read c.Command, Args := h.read c.Args }) := by
  simp [PodSpecInMemory.view, List.getElem?_map]

/-- When the container lookup fails, `UpdatePodSpec` returns the error and writes
nothing. -/
theorem updatePodSpecInMemory_of_error (st : ShardStrategy) (grow : Nat → Nat → Nat)
    (h : Heap) (pod : PodSpecInMemory) (podIndex : Int) (err : String)
    (hget : getFlytePropellerContainer (pod.view h) = .error err) :
    st.UpdatePodSpecInMemory grow h pod podIndex = some (h, pod, some err) := by
  cases st with
  | ConsistentHashing c =>
    simp only [ShardStrategy.UpdatePodSpecInMemory,
      ConsistentHashingShardStrategy.UpdatePodSpecInMemory, hget]
  | Namespace n =>
    simp only [ShardStrategy.UpdatePodSpecInMemory,
      NamespaceShardStrategy.UpdatePodSpecInMemory, hget]

/-- When the container lookup returns index `k`, `UpdatePodSpec` of a strategy made by
the factory, at a replica index below its pod count, appends the labels of the replica
to the `Args` slice of container `k` and stores the resulting slice in that container. -/
theorem updatePodSpecInMemory_of_ok (cfg : ShardConfig) (st : ShardStrategy)
    (hst : NewShardStrategy cfg = .ok st) (grow : Nat → Nat → Nat) (h : Heap)
    (pod : PodSpecInMemory) (podIndex : Int)
    (h0 : 0 ≤ podIndex) (hi : podIndex < st.GetPodCount.1)
    (k : Nat) (container : ContainerInMemory)
    (hget : getFlytePropellerContainer (pod.view h) = .ok k)
    (hk : pod.Containers[k]? = some container)
    (ha : container.Args.array < h.next) :
    ∃ (h1 : Heap) (args1 : StringSlice),
      st.UpdatePodSpecInMemory grow h pod podIndex
          = some (h1, { Containers := pod.Containers.set k { container with Args := args1 } },
              none)
        ∧ AppendedFrom h container.Args h1 args1 (labelArgs st podIndex) := by
  have start := AppendedFrom.start h container.Args ha
  rcases newShardStrategy_ok_cases cfg st hst with ⟨_, h1, h32, rfl⟩ | ⟨_, _, rfl⟩
  · simp only [ShardStrategy.GetPodCount, ConsistentHashingShardStrategy.GetPodCount] at hi
    have hr := computeKeyRange_eq cfg.PodCount podIndex h1 h32 h0 (by omega)
    refine ⟨(appendShardLabelsInMemory grow h container.Args (startKey32 cfg.PodCount podIndex)
        (startKey32 cfg.PodCount (podIndex + 1))).1,
      (appendShardLabelsInMemory grow h container.Args (startKey32 cfg.PodCount podIndex)
        (startKey32 cfg.PodCount (podIndex + 1))).2, ?_, ?_⟩
    · simp only [ShardStrategy.UpdatePodSpecInMemory,
        ConsistentHashingShardStrategy.UpdatePodSpecInMemory, hget, hk,
        ConsistentHashingKeyspaceSize, hr]
    · have := appendShardLabelsInMemory_spec grow _ (startKey32 cfg.PodCount podIndex)
        (startKey32 cfg.PodCount (podIndex + 1)) rfl start
      simpa [labelArgs] using this
  · simp only [ShardStrategy.GetPodCount, NamespaceShardStrategy.GetPodCount] at hi
    have hcond : ¬ (podIndex < 0
        ∨ ((cfg.NamespaceReplicas.map (fun g => g.Namespaces)).length : Int) ≤ podIndex) := by
      omega
    refine ⟨(appendNamespaceLabelsInMemory grow h container.Args
        ((cfg.NamespaceReplicas.map (fun g => g.Namespaces)).getD podIndex.toNat [])).1,
      (appendNamespaceLabelsInMemory grow h container.Args
        ((cfg.NamespaceReplicas.map (fun g => g.Namespaces)).getD podIndex.toNat [])).2, ?_, ?_⟩
    · simp only [ShardStrategy.UpdatePodSpecInMemory,
        NamespaceShardStrategy.UpdatePodSpecInMemory, hget, hk, if_neg hcond]
    · have := appendNamespaceLabelsInMemory_spec grow
        ((cfg.NamespaceReplicas.map (fun g => g.Namespaces)).getD podIndex.toNat []) start
      simpa [labelArgs] using this

/-! ## The key-range partition -/

/-- C1, evaluated on the code: with seven replicas, token 28 of the keyspace `[0,32)`
lies in the key range of no replica index `i` with `0 ≤ i < 7`, so the ranges do not
cover the keyspace. -/
theorem coverage_gap_seven_pods :
    ¬ ∃ i : Int, 0 ≤ i ∧ i < 7 ∧
      ∃ s e : Int, computeKeyRange 32 7 i = some (s, e) ∧ s ≤ 28 ∧ 28 < e := by
  rintro ⟨i, h0, h7, s, e, h, hs, he⟩
  have hh := computeKeyRange_eq 7 i (by norm_num) (by norm_num) h0 (by omega)
  rw [hh] at h
  simp only [Option.some.injEq, Prod.mk.injEq] at h
  obtain ⟨rfl, rfl⟩ := h
  have hm := startKey32_mono 7 (by norm_num) (by norm_num) (6 - i).toNat (i + 1)
    (by omega) (by omega)
  have e7 : i + 1 + ((6 - i).toNat : Int) = 7 := by omega
  rw [e7] at hm
  have h28 : startKey32 7 7 = 28 := by decide
  omega

/-- C2: for `1 ≤ podCount ≤ 32` and `0 ≤ i < podCount` the call
`computeKeyRange 32 podCount i` returns a pair `(s, e)` with `0 ≤ s ≤ e ≤ 32`, and
no token lies both in `[s, e)` and in the range of another replica `j ≠ i` of
`[0, podCount)`. -/
theorem keyRange_within_keyspace_and_disjoint (podCount i : Int)
    (h1 : 1 ≤ podCount) (h32 : podCount ≤ 32) (h0 : 0 ≤ i) (hi : i < podCount) :
    ∃ s e : Int, computeKeyRange 32 podCount i = some (s, e)
      ∧ 0 ≤ s ∧ s ≤ e ∧ e ≤ 32
      ∧ ∀ j : Int, 0 ≤ j → j < podCount → j ≠ i →
          ∀ s2 e2 : Int, computeKeyRange 32 podCount j = some (s2, e2) →
            ∀ t : Int, ¬ ((s ≤ t ∧ t < e) ∧ (s2 ≤ t ∧ t < e2)) := by
  have hs := startKey32_step podCount i h1 h32 h0 (by omega)
  refine ⟨startKey32 podCount i, startKey32 podCount (i + 1),
    computeKeyRange_eq podCount i h1 h32 h0 (by omega), hs.1, hs.2.1, hs.2.2 hi, ?_⟩
  intro j hj0 hj hne s2 e2 hj2 t
  rw [computeKeyRange_eq podCount j h1 h32 hj0 (by omega)] at hj2
  simp only [Option.some.injEq, Prod.mk.injEq] at hj2
  obtain ⟨rfl, rfl⟩ := hj2
  rcases lt_or_gt_of_ne hne with hlt | hgt
  · have hm := startKey32_mono podCount h1 h32 (i - (j + 1)).toNat (j + 1)
      (by omega) (by omega)
    have e1 : j + 1 + ((i - (j + 1)).toNat : Int) = i := by omega
    rw [e1] at hm
    omega
  · have hm := startKey32_mono podCount h1 h32 (j - (i + 1)).toNat (i + 1)
      (by omega) (by omega)
    have e1 : i + 1 + ((j - (i + 1)).toNat : Int) = j := by omega
    rw [e1] at hm
    omega

/-- Witness of C2 at seven replicas and replica index 3. -/
theorem keyRange_within_keyspace_and_disjoint_witness :
    ∃ s e : Int, computeKeyRange 32 7 3 = some (s, e)
      ∧ 0 ≤ s ∧ s ≤ e ∧ e ≤ 32
      ∧ ∀ j : Int, 0 ≤ j → j < 7 → j ≠ 3 →
          ∀ s2 e2 : Int, computeKeyRange 32 7 j = some (s2, e2) →
            ∀ t : Int, ¬ ((s ≤ t ∧ t < e) ∧ (s2 ≤ t ∧ t < e2)) :=
  keyRange_within_keyspace_and_disjoint 7 3 (by decide) (by decide) (by decide) (by decide)

/-- C3, evaluated on the code: with seven replicas the code gives replica 0 the range
`[0, 4)`, while the formula of the specification (remainder `32 − 4 * 7 = 4`) gives it
`[0, 5)`; the code takes the remainder `32 % 4 = 0` instead. -/
theorem computeKeyRange_differs_from_formula :
    computeKeyRange 32 7 0 = some (0, 4) ∧ specKeyRange 32 7 0 = (0, 5)
      ∧ goMod 32 4 = some 0 ∧ specRemainder 32 7 = 4 := by
  decide

/-- C4: with nine replicas the code divides `32 / 9 = 3`, takes the leftover
`32 % 3 = 2`, and the ranges of the replicas `0..8` together hold exactly the tokens
`0..28`; tokens 29, 30 and 31 are in no replica's range. -/
theorem nine_pods_cover_tokens_0_to_28 :
    goDiv 32 9 = some 3 ∧ floorFloat64 3 = 3 ∧ goMod 32 3 = some 2
      ∧ (∀ t : Int,
          (∃ i : Int, 0 ≤ i ∧ i < 9 ∧
            ∃ s e : Int, computeKeyRange 32 9 i = some (s, e) ∧ s ≤ t ∧ t < e)
            ↔ (0 ≤ t ∧ t ≤ 28))
      ∧ (∀ t : Int, t = 29 ∨ t = 30 ∨ t = 31 →
          ¬ ∃ i : Int, 0 ≤ i ∧ i < 9 ∧
            ∃ s e : Int, computeKeyRange 32 9 i = some (s, e) ∧ s ≤ t ∧ t < e) := by
  have key : ∀ t : Int,
      (∃ i : Int, 0 ≤ i ∧ i < 9 ∧
        ∃ s e : Int, computeKeyRange 32 9 i = some (s, e) ∧ s ≤ t ∧ t < e)
        ↔ (0 ≤ t ∧ t ≤ 28) := by
    intro t
    have r0 : computeKeyRange 32 9 0 = some (0, 4) := by decide
    have r1 : computeKeyRange 32 9 1 = some (4, 8) := by decide
    have r2 : computeKeyRange 32 9 2 = some (8, 11) := by decide
    have r3 : computeKeyRange 32 9 3 = some (11, 14) := by decide
    have r4 : computeKeyRange 32 9 4 = some (14, 17) := by decide
    have r5 : computeKeyRange 32 9 5 = some (17, 20) := by decide
    have r6 : computeKeyRange 32 9 6 = some (20, 23) := by decide
    have r7 : computeKeyRange 32 9 7 = some (23, 26) := by decide
    have r8 : computeKeyRange 32 9 8 = some (26, 29) := by decide
    constructor
    · rintro ⟨i, h0, h9, s, e, h, hs, he⟩
      interval_cases i
      · rw [r0] at h; simp only [Option.some.injEq, Prod.mk.injEq] at h; omega
      · rw [r1] at h; simp only [Option.some.injEq, Prod.mk.injEq] at h; omega
      · rw [r2] at h; simp only [Option.some.injEq, Prod.mk.injEq] at h; omega
      · rw [r3] at h; simp only [Option.some.injEq, Prod.mk.injEq] at h; omega
      · rw [r4] at h; simp only [Option.some.injEq, Prod.mk.injEq] at h; omega
      · rw [r5] at h; simp only [Option.some.injEq, Prod.mk.injEq] at h; omega
      · rw [r6] at h; simp only [Option.some.injEq, Prod.mk.injEq] at h; omega
      · rw [r7] at h; simp only [Option.some.injEq, Prod.mk.injEq] at h; omega
      · rw [r8] at h; simp only [Option.some.injEq, Prod.mk.injEq] at h; omega
    · rintro ⟨h0, h28⟩
      have hc : t < 4 ∨ (4 ≤ t ∧ t < 8) ∨ (8 ≤ t ∧ t < 11) ∨ (11 ≤ t ∧ t < 14)
          ∨ (14 ≤ t ∧ t < 17) ∨ (17 ≤ t ∧ t < 20) ∨ (20 ≤ t ∧ t < 23)
          ∨ (23 ≤ t ∧ t < 26) ∨ (26 ≤ t ∧ t < 29) := by omega
      rcases hc with h | h | h | h | h | h | h | h | h
      · exact ⟨0, by norm_num, by norm_num, 0, 4, r0, by omega, by omega⟩
      · exact ⟨1, by norm_num, by norm_num, 4, 8, r1, by omega, by omega⟩
      · exact ⟨2, by norm_num, by norm_num, 8, 11, r2, by omega, by omega⟩
      · exact ⟨3, by norm_num, by norm_num, 11, 14, r3, by omega, by omega⟩
      · exact ⟨4, by norm_num, by norm_num, 14, 17, r4, by omega, by omega⟩
      · exact ⟨5, by norm_num, by norm_num, 17, 20, r5, by omega, by omega⟩
      · exact ⟨6, by norm_num, by norm_num, 20, 23, r6, by omega, by omega⟩
      · exact ⟨7, by norm_num, by norm_num, 23, 26, r7, by omega, by omega⟩
      · exact ⟨8, by norm_num, by norm_num, 26, 29, r8, by omega, by omega⟩
  refine ⟨by decide, by decide, by decide, key, ?_⟩
  intro t ht hex
  have := (key t).mp hex
  omega

/-- C11: for `1 ≤ podCount ≤ 32` the range of replica 0 starts at 0, and for every `i`
with `0 ≤ i` and `i + 1 < podCount` the range of replica `i + 1` starts at the end key of
the range of replica `i`. -/
theorem keyRange_starts_at_zero_and_adjacent (podCount : Int)
    (h1 : 1 ≤ podCount) (h32 : podCount ≤ 32) :
    (∃ e : Int, computeKeyRange 32 podCount 0 = some (0, e))
      ∧ ∀ i : Int, 0 ≤ i → i + 1 < podCount →
          ∃ s e e2 : Int, computeKeyRange 32 podCount i = some (s, e)
            ∧ computeKeyRange 32 podCount (i + 1) = some (e, e2) := by
  constructor
  · have h := computeKeyRange_eq podCount 0 h1 h32 (le_refl 0) (by norm_num)
    rw [(startKey32_size podCount 0 h1 h32 (le_refl 0) (by norm_num)).1] at h
    exact ⟨_, h⟩
  · intro i h0 hi
    exact ⟨_, _, _, computeKeyRange_eq podCount i h1 h32 h0 (by omega),
      computeKeyRange_eq podCount (i + 1) h1 h32 (by omega) (by omega)⟩

/-- Witness of C11 at nine replicas. -/
theorem keyRange_starts_at_zero_and_adjacent_witness :
    (∃ e : Int, computeKeyRange 32 9 0 = some (0, e))
      ∧ ∀ i : Int, 0 ≤ i → i + 1 < 9 →
          ∃ s e e2 : Int, computeKeyRange 32 9 i = some (s, e)
            ∧ computeKeyRange 32 9 (i + 1) = some (e, e2) :=
  keyRange_starts_at_zero_and_adjacent 9 (by decide) (by decide)

/-- C12: for `1 ≤ podCount ≤ 32` and replica indices `i`, `j` in `[0, podCount)` the
sizes `end - start` of the two key ranges differ by at most 1. -/
theorem keyRange_sizes_differ_by_at_most_one (podCount i j : Int)
    (h1 : 1 ≤ podCount) (h32 : podCount ≤ 32)
    (hi0 : 0 ≤ i) (hi : i < podCount) (hj0 : 0 ≤ j) (hj : j < podCount) :
    ∃ s e s2 e2 : Int, computeKeyRange 32 podCount i = some (s, e)
      ∧ computeKeyRange 32 podCount j = some (s2, e2)
      ∧ |(e - s) - (e2 - s2)| ≤ 1 := by
  refine ⟨_, _, _, _, computeKeyRange_eq podCount i h1 h32 hi0 (by omega),
    computeKeyRange_eq podCount j h1 h32 hj0 (by omega), ?_⟩
  have a := (startKey32_size podCount i h1 h32 hi0 (by omega)).2.2
  have b := (startKey32_size podCount j h1 h32 hj0 (by omega)).2.2
  rw [abs_le]
  omega

/-- Witness of C12 at nine replicas, replicas 1 (4 tokens) and 8 (3 tokens). -/
theorem keyRange_sizes_differ_by_at_most_one_witness :
    ∃ s e s2 e2 : Int, computeKeyRange 32 9 1 = some (s, e)
      ∧ computeKeyRange 32 9 8 = some (s2, e2)
      ∧ |(e - s) - (e2 - s2)| ≤ 1 :=
  keyRange_sizes_differ_by_at_most_one 9 1 8 (by decide) (by decide) (by decide)
    (by decide) (by decide) (by decide)

/-- C15: with four replicas the key ranges are `(0,8)`, `(8,16)`, `(16,24)`, `(24,32)`,
and with five replicas they are `(0,7)`, `(7,14)`, `(14,20)`, `(20,26)`, `(26,32)`. -/
theorem keyRange_scenarios_four_and_five_pods :
    computeKeyRange 32 4 0 = some (0, 8) ∧ computeKeyRange 32 4 1 = some (8, 16)
      ∧ computeKeyRange 32 4 2 = some (16, 24) ∧ computeKeyRange 32 4 3 = some (24, 32)
      ∧ computeKeyRange 32 5 0 = some (0, 7) ∧ computeKeyRange 32 5 1 = some (7, 14)
      ∧ computeKeyRange 32 5 2 = some (14, 20) ∧ computeKeyRange 32 5 3 = some (20, 26)
      ∧ computeKeyRange 32 5 4 = some (26, 32) := by
  decide

/-- C16: for `1 ≤ podCount ≤ 32` and `k = 32 / podCount`, a token `t` of `[0, 32)` is in
no replica's range if and only if `podCount * k + 32 % k ≤ t`; hence every token of
`[0, 32)` is owned if and only if `podCount` is one of 1, 2, 3, 4, 5, 6, 8, 10, 16, 32,
and for every other `podCount` some token of `[0, 32)` is owned by no replica. -/
theorem unowned_tokens_characterised (podCount : Int)
    (h1 : 1 ≤ podCount) (h32 : podCount ≤ 32) :
    (∀ t : Int, 0 ≤ t → t < 32 →
        ((¬ ∃ i : Int, 0 ≤ i ∧ i < podCount ∧
            ∃ s e : Int, computeKeyRange 32 podCount i = some (s, e) ∧ s ≤ t ∧ t < e)
          ↔ podCount * (32 / podCount) + 32 % (32 / podCount) ≤ t))
      ∧ ((∀ t : Int, 0 ≤ t → t < 32 →
            ∃ i : Int, 0 ≤ i ∧ i < podCount ∧
              ∃ s e : Int, computeKeyRange 32 podCount i = some (s, e) ∧ s ≤ t ∧ t < e)
          ↔ (podCount = 1 ∨ podCount = 2 ∨ podCount = 3 ∨ podCount = 4 ∨ podCount = 5
              ∨ podCount = 6 ∨ podCount = 8 ∨ podCount = 10 ∨ podCount = 16
              ∨ podCount = 32))
      ∧ (¬ (podCount = 1 ∨ podCount = 2 ∨ podCount = 3 ∨ podCount = 4 ∨ podCount = 5
              ∨ podCount = 6 ∨ podCount = 8 ∨ podCount = 10 ∨ podCount = 16
              ∨ podCount = 32) →
          ∃ t : Int, 0 ≤ t ∧ t < 32 ∧
            ¬ ∃ i : Int, 0 ≤ i ∧ i < podCount ∧
              ∃ s e : Int, computeKeyRange 32 podCount i = some (s, e) ∧ s ≤ t ∧ t < e) := by
  obtain ⟨htot, hlist⟩ := startKey32_total podCount h1 h32
  have hle : startKey32 podCount podCount ≤ 32 := by
    have := (startKey32_step podCount (podCount - 1) h1 h32 (by omega) (by omega)).2.2
      (by omega)
    simpa using this
  have hown := owned_iff_lt_startKey32 podCount h1 h32
  refine ⟨?_, ?_, ?_⟩
  · intro t h0 ht
    rw [hown t, ← htot]
    omega
  · rw [← hlist]
    constructor
    · intro h
      by_contra hne
      have h3 := h (startKey32 podCount podCount)
        (startKey32_step podCount podCount h1 h32 (by omega) (by omega)).1 (by omega)
      have := (hown _).mp h3
      omega
    · intro h t h0 ht
      exact (hown t).mpr ⟨h0, by omega⟩
  · intro hne
    rw [← hlist] at hne
    refine ⟨startKey32 podCount podCount,
      (startKey32_step podCount podCount h1 h32 (by omega) (by omega)).1, by omega, ?_⟩
    intro h
    have := (hown _).mp h
    omega

/-- Witness of C16 at seven replicas, where the tokens 28..31 are owned by no replica. -/
theorem unowned_tokens_characterised_witness :
    (∀ t : Int, 0 ≤ t → t < 32 →
        ((¬ ∃ i : Int, 0 ≤ i ∧ i < 7 ∧
            ∃ s e : Int, computeKeyRange 32 7 i = some (s, e) ∧ s ≤ t ∧ t < e)
          ↔ 7 * (32 / 7) + 32 % (32 / 7) ≤ t))
      ∧ ((∀ t : Int, 0 ≤ t → t < 32 →
            ∃ i : Int, 0 ≤ i ∧ i < 7 ∧
              ∃ s e : Int, computeKeyRange 32 7 i = some (s, e) ∧ s ≤ t ∧ t < e)
          ↔ ((7 : Int) = 1 ∨ (7 : Int) = 2 ∨ (7 : Int) = 3 ∨ (7 : Int) = 4 ∨ (7 : Int) = 5
              ∨ (7 : Int) = 6 ∨ (7 : Int) = 8 ∨ (7 : Int) = 10 ∨ (7 : Int) = 16
              ∨ (7 : Int) = 32))
      ∧ (¬ ((7 : Int) = 1 ∨ (7 : Int) = 2 ∨ (7 : Int) = 3 ∨ (7 : Int) = 4 ∨ (7 : Int) = 5
              ∨ (7 : Int) = 6 ∨ (7 : Int) = 8 ∨ (7 : Int) = 10 ∨ (7 : Int) = 16
              ∨ (7 : Int) = 32) →
          ∃ t : Int, 0 ≤ t ∧ t < 32 ∧
            ¬ ∃ i : Int, 0 ≤ i ∧ i < 7 ∧
              ∃ s e : Int, computeKeyRange 32 7 i = some (s, e) ∧ s ≤ t ∧ t < e) :=
  unowned_tokens_characterised 7 (by decide) (by decide)

/-! ## The factory -/

/-- C5: for a configuration of type ConsistentHashing, `NewShardStrategy` returns an
error if and only if `podCount ≤ 0` or `podCount > 32`; otherwise it returns the
ConsistentHashing strategy whose `GetPodCount` is the configured `podCount` with no
error. -/
theorem newShardStrategy_consistentHashing (cfg : ShardConfig)
    (hT : cfg.Type_ = ConsistentHashingShardType) :
    ((∃ msg, NewShardStrategy cfg = .error msg) ↔ (cfg.PodCount ≤ 0 ∨ cfg.PodCount > 32))
      ∧ (¬ (cfg.PodCount ≤ 0 ∨ cfg.PodCount > 32) →
          ∃ c : ConsistentHashingShardStrategy,
            NewShardStrategy cfg = .ok (.ConsistentHashing c)
              ∧ (ShardStrategy.ConsistentHashing c).GetPodCount = (cfg.PodCount, none)) := by
  by_cases h0 : cfg.PodCount ≤ 0
  · have hn : NewShardStrategy cfg = .error ("configured PodCount (" ++ fmtD cfg.PodCount
        ++ ") must be greater than zero") := by
      simp [NewShardStrategy, hT, h0]
    exact ⟨⟨fun _ => Or.inl h0, fun _ => ⟨_, hn⟩⟩, fun h => absurd (Or.inl h0) h⟩
  · by_cases h32 : cfg.PodCount > 32
    · have hn : NewShardStrategy cfg = .error ("configured PodCount (" ++ fmtD cfg.PodCount
          ++ ") is larger than available keyspace size ("
          ++ fmtD ConsistentHashingKeyspaceSize ++ ")") := by
        simp [NewShardStrategy, hT, h0, ConsistentHashingKeyspaceSize, h32]
      exact ⟨⟨fun _ => Or.inr h32, fun _ => ⟨_, hn⟩⟩, fun h => absurd (Or.inr h32) h⟩
    · have hn : NewShardStrategy cfg = .ok (.ConsistentHashing { podCount := cfg.PodCount }) := by
        simp only [NewShardStrategy, hT, if_true, if_neg h0, ConsistentHashingKeyspaceSize,
          if_neg h32]
      refine ⟨⟨?_, ?_⟩, fun _ => ⟨_, hn, rfl⟩⟩
      · rintro ⟨msg, hm⟩
        rw [hn] at hm
        cases hm
      · rintro (h | h)
        · exact absurd h h0
        · exact absurd h h32

/-- Witness of C5: thirty-three replicas are refused, eight are accepted. -/
theorem newShardStrategy_consistentHashing_witness :
    (((∃ msg, NewShardStrategy ⟨"consistent-hashing", 33, []⟩ = .error msg)
        ↔ ((33 : Int) ≤ 0 ∨ (33 : Int) > 32))
      ∧ (¬ ((33 : Int) ≤ 0 ∨ (33 : Int) > 32) →
          ∃ c : ConsistentHashingShardStrategy,
            NewShardStrategy ⟨"consistent-hashing", 33, []⟩ = .ok (.ConsistentHashing c)
              ∧ (ShardStrategy.ConsistentHashing c).GetPodCount = (33, none)))
    ∧ (((∃ msg, NewShardStrategy ⟨"consistent-hashing", 8, []⟩ = .error msg)
        ↔ ((8 : Int) ≤ 0 ∨ (8 : Int) > 32))
      ∧ (¬ ((8 : Int) ≤ 0 ∨ (8 : Int) > 32) →
          ∃ c : ConsistentHashingShardStrategy,
            NewShardStrategy ⟨"consistent-hashing", 8, []⟩ = .ok (.ConsistentHashing c)
              ∧ (ShardStrategy.ConsistentHashing c).GetPodCount = (8, none))) :=
  ⟨newShardStrategy_consistentHashing ⟨"consistent-hashing", 33, []⟩ rfl,
    newShardStrategy_consistentHashing ⟨"consistent-hashing", 8, []⟩ rfl⟩

/-- C6: for a configuration of type Namespace, `NewShardStrategy` returns an error if
and only if some configured group has zero namespaces; otherwise it returns the
Namespace strategy that holds the namespace lists of the configured groups in the
configured order, and its `GetPodCount` is the number of configured groups. -/
theorem newShardStrategy_namespace (cfg : ShardConfig)
    (hT : cfg.Type_ = NamespaceShardType) :
    ((∃ msg, NewShardStrategy cfg = .error msg)
        ↔ ∃ g ∈ cfg.NamespaceReplicas, g.Namespaces.length = 0)
      ∧ ((¬ ∃ g ∈ cfg.NamespaceReplicas, g.Namespaces.length = 0) →
          NewShardStrategy cfg
              = .ok (.Namespace
                  { namespaceReplicas := cfg.NamespaceReplicas.map (fun g => g.Namespaces) })
            ∧ (ShardStrategy.Namespace
                { namespaceReplicas := cfg.NamespaceReplicas.map (fun g => g.Namespaces) }).GetPodCount
              = ((cfg.NamespaceReplicas.length : Int), none)) := by
  have hne : ¬ NamespaceShardType = ConsistentHashingShardType := by decide
  by_cases hg : ∃ g ∈ cfg.NamespaceReplicas, g.Namespaces.length = 0
  · have hn : NewShardStrategy cfg
        = .error "unable to create namespace replica with 0 configured namespace(s)" := by
      simp only [NewShardStrategy, hT, if_neg hne, if_true, collectNamespaceReplicas_eq,
        if_pos hg]
    exact ⟨⟨fun _ => hg, fun _ => ⟨_, hn⟩⟩, fun h => absurd hg h⟩
  · have hn : NewShardStrategy cfg
        = .ok (.Namespace
            { namespaceReplicas := cfg.NamespaceReplicas.map (fun g => g.Namespaces) }) := by
      simp only [NewShardStrategy, hT, if_neg hne, if_true, collectNamespaceReplicas_eq,
        if_neg hg, List.nil_append]
    refine ⟨⟨?_, fun h => absurd h hg⟩, fun _ => ⟨hn, ?_⟩⟩
    · rintro ⟨msg, hm⟩
      rw [hn] at hm
      cases hm
    · simp [ShardStrategy.GetPodCount, NamespaceShardStrategy.GetPodCount]

/-- Witness of C6: two groups, `[ns-a]` and `[ns-b, ns-c]`. -/
theorem newShardStrategy_namespace_witness :
    ((∃ msg, NewShardStrategy ⟨"namespace", 0, [⟨["ns-a"]⟩, ⟨["ns-b", "ns-c"]⟩]⟩ = .error msg)
        ↔ ∃ g ∈ [(⟨["ns-a"]⟩ : NamespaceConfig), ⟨["ns-b", "ns-c"]⟩], g.Namespaces.length = 0)
      ∧ ((¬ ∃ g ∈ [(⟨["ns-a"]⟩ : NamespaceConfig), ⟨["ns-b", "ns-c"]⟩],
            g.Namespaces.length = 0) →
          NewShardStrategy ⟨"namespace", 0, [⟨["ns-a"]⟩, ⟨["ns-b", "ns-c"]⟩]⟩
              = .ok (.Namespace { namespaceReplicas := [["ns-a"], ["ns-b", "ns-c"]] })
            ∧ (ShardStrategy.Namespace
                { namespaceReplicas := [["ns-a"], ["ns-b", "ns-c"]] }).GetPodCount
              = (2, none)) :=
  newShardStrategy_namespace ⟨"namespace", 0, [⟨["ns-a"]⟩, ⟨["ns-b", "ns-c"]⟩]⟩ rfl

/-- C7: for a configuration whose type is neither ConsistentHashing nor Namespace,
whatever its other fields, `NewShardStrategy` returns the error
`shard strategy '<type>' does not exist`, `<type>` being the rendering of the type. -/
theorem newShardStrategy_unknown_type (cfg : ShardConfig)
    (h1 : cfg.Type_ ≠ ConsistentHashingShardType) (h2 : cfg.Type_ ≠ NamespaceShardType) :
    NewShardStrategy cfg = .error ("shard strategy '" ++ cfg.Type_ ++ "' does not exist") := by
  simp only [NewShardStrategy, if_neg h1, if_neg h2]

/-- Witness of C7: the type `bogus`. -/
theorem newShardStrategy_unknown_type_witness :
    NewShardStrategy ⟨"bogus", 4, [⟨["ns-a"]⟩]⟩
      = .error ("shard strategy '" ++ "bogus" ++ "' does not exist") :=
  newShardStrategy_unknown_type ⟨"bogus", 4, [⟨["ns-a"]⟩]⟩ (by decide) (by decide)

/-- C13, as the code has it: a Namespace configuration accepted by the factory yields
a Namespace strategy whose groups all have length at least 1 and whose `GetPodCount`
is the number of configured groups, so that `GetPodCount ≥ 1` holds exactly when the
configuration has at least one group. -/
theorem namespace_strategy_groups_nonempty (cfg : ShardConfig) (st : ShardStrategy)
    (hT : cfg.Type_ = NamespaceShardType) (hst : NewShardStrategy cfg = .ok st) :
    ∃ n : NamespaceShardStrategy, st = .Namespace n
      ∧ (∀ group ∈ n.namespaceReplicas, 1 ≤ group.length)
      ∧ st.GetPodCount = ((cfg.NamespaceReplicas.length : Int), none)
      ∧ (1 ≤ st.GetPodCount.1 ↔ cfg.NamespaceReplicas ≠ []) := by
  rcases newShardStrategy_ok_cases cfg st hst with ⟨hC, _, _, _⟩ | ⟨_, hg, rfl⟩
  · rw [hT] at hC
    exact absurd hC (by decide)
  · refine ⟨_, rfl, ?_, ?_, ?_⟩
    · intro group hm
      obtain ⟨g, hgm, rfl⟩ := List.mem_map.mp hm
      have := hg g hgm
      omega
    · simp [ShardStrategy.GetPodCount, NamespaceShardStrategy.GetPodCount]
    · simp only [ShardStrategy.GetPodCount, NamespaceShardStrategy.GetPodCount,
        List.length_map]
      cases cfg.NamespaceReplicas with
      | nil => simp
      | cons a l => simp

/-- Witness of the amended C13 at the groups `[ns-a]` and `[ns-b, ns-c]`. -/
theorem namespace_strategy_groups_nonempty_witness :
    ∃ n : NamespaceShardStrategy,
      ShardStrategy.Namespace ⟨[["ns-a"], ["ns-b", "ns-c"]]⟩ = .Namespace n
      ∧ (∀ group ∈ n.namespaceReplicas, 1 ≤ group.length)
      ∧ (ShardStrategy.Namespace ⟨[["ns-a"], ["ns-b", "ns-c"]]⟩).GetPodCount
          = ((([⟨["ns-a"]⟩, ⟨["ns-b", "ns-c"]⟩] : List NamespaceConfig).length : Int), none)
      ∧ (1 ≤ (ShardStrategy.Namespace ⟨[["ns-a"], ["ns-b", "ns-c"]]⟩).GetPodCount.1
          ↔ ([⟨["ns-a"]⟩, ⟨["ns-b", "ns-c"]⟩] : List NamespaceConfig) ≠ []) :=
  namespace_strategy_groups_nonempty ⟨"namespace", 0, [⟨["ns-a"]⟩, ⟨["ns-b", "ns-c"]⟩]⟩
    (.Namespace ⟨[["ns-a"], ["ns-b", "ns-c"]]⟩) rfl rfl

/-- Counterexample to C13 as stated: the factory accepts a Namespace configuration
without any group, and the strategy it returns has `GetPodCount = 0`. -/
theorem namespace_strategy_without_groups :
    NewShardStrategy ⟨"namespace", 0, []⟩ = .ok (.Namespace ⟨[]⟩)
      ∧ (ShardStrategy.Namespace ⟨[]⟩).GetPodCount = (0, none)
      ∧ ¬ (1 ≤ (ShardStrategy.Namespace ⟨[]⟩).GetPodCount.1) :=
  ⟨rfl, rfl, by decide⟩

/-- C17: for a ConsistentHashing strategy returned by the factory and any `podIndex`,
both divisors of `computeKeyRange 32 podCount podIndex` are non-zero (`podCount ≥ 1`
and `keysPerPod = 32 / podCount ≥ 1`), so the division and the modulo succeed and the
call returns; whereas for any `podCount > 32` the division gives `keysPerPod = 0` and
the modulo by it fails, so the call panics. -/
theorem factory_keeps_key_range_arithmetic_total (cfg : ShardConfig)
    (c : ConsistentHashingShardStrategy)
    (hst : NewShardStrategy cfg = .ok (.ConsistentHashing c))
    (podIndex largeCount : Int) (hlarge : 32 < largeCount) :
    (1 ≤ c.podCount
      ∧ (∃ q : Int, goDiv ConsistentHashingKeyspaceSize c.podCount = some q
          ∧ 1 ≤ floorFloat64 q
          ∧ ∃ r : Int, goMod ConsistentHashingKeyspaceSize (floorFloat64 q) = some r)
      ∧ ∃ startKey endKey : Int,
          computeKeyRange ConsistentHashingKeyspaceSize c.podCount podIndex
            = some (startKey, endKey))
    ∧ (goDiv ConsistentHashingKeyspaceSize largeCount = some 0
      ∧ floorFloat64 0 = 0
      ∧ goMod ConsistentHashingKeyspaceSize 0 = none
      ∧ computeKeyRange ConsistentHashingKeyspaceSize largeCount podIndex = none) := by
  have hc : 1 ≤ c.podCount ∧ c.podCount ≤ 32 := by
    rcases newShardStrategy_ok_cases cfg _ hst with ⟨_, h1, h32, h⟩ | ⟨_, _, h⟩
    · simp only [ShardStrategy.ConsistentHashing.injEq] at h
      rw [h]
      exact ⟨h1, h32⟩
    · cases h
  obtain ⟨hd, hf, hk, hm⟩ := keysPerPod_facts c.podCount hc.1 hc.2
  have hdiv : goDiv 32 largeCount = some 0 := by
    have hne : largeCount ≠ 0 := by omega
    simp only [goDiv, if_neg hne, Int.tdiv_eq_zero_of_lt (by norm_num : (0 : Int) ≤ 32) hlarge]
    rfl
  have hfl : floorFloat64 0 = 0 := by decide
  have hmod : goMod 32 0 = none := by decide
  unfold ConsistentHashingKeyspaceSize
  refine ⟨⟨hc.1, ⟨_, hd, by rw [hf]; exact hk, _, by rw [hf]; exact hm⟩, ?_⟩,
    hdiv, hfl, hmod, ?_⟩
  · simp only [computeKeyRange, hd, hf, hm]
    exact ⟨_, _, rfl⟩
  · simp only [computeKeyRange, hdiv, hfl, hmod]

/-- Witness of C17: the strategy of five replicas, and a count of 33. -/
theorem factory_keeps_key_range_arithmetic_total_witness :
    (1 ≤ (5 : Int)
      ∧ (∃ q : Int, goDiv ConsistentHashingKeyspaceSize 5 = some q
          ∧ 1 ≤ floorFloat64 q
          ∧ ∃ r : Int, goMod ConsistentHashingKeyspaceSize (floorFloat64 q) = some r)
      ∧ ∃ startKey endKey : Int,
          computeKeyRange ConsistentHashingKeyspaceSize 5 (-3) = some (startKey, endKey))
    ∧ (goDiv ConsistentHashingKeyspaceSize 33 = some 0
      ∧ floorFloat64 0 = 0
      ∧ goMod ConsistentHashingKeyspaceSize 0 = none
      ∧ computeKeyRange ConsistentHashingKeyspaceSize 33 (-3) = none) :=
  factory_keeps_key_range_arithmetic_total ⟨"consistent-hashing", 5, []⟩ ⟨5⟩ rfl (-3) 33
    (by decide)

/-! ## The pod-spec mutation -/

/-- C8: `getFlytePropellerContainer` succeeds if and only if exactly one container
has a non-empty command whose first element is `flytepropeller`; it then returns that
container, the only one of the pod with such a command; and when the number `n` of
such containers is not 1 it returns the error that reports `n`. -/
theorem getFlytePropellerContainer_exactly_one (pod : PodSpec) :
    ((∃ k, getFlytePropellerContainer pod = .ok k)
        ↔ pod.Containers.countP
            (fun c => decide (c.Command.head? = some "flytepropeller")) = 1)
      ∧ (∀ k, getFlytePropellerContainer pod = .ok k →
          (∃ c, pod.Containers[k]? = some c ∧ c.Command.head? = some "flytepropeller")
            ∧ ∀ j c, pod.Containers[j]? = some c →
                c.Command.head? = some "flytepropeller" → j = k)
      ∧ (∀ n : Nat,
          pod.Containers.countP
            (fun c => decide (c.Command.head? = some "flytepropeller")) = n → n ≠ 1 →
          getFlytePropellerContainer pod
            = .error ("expecting 1 flytepropeller container in podtemplate but found "
                ++ fmtD n ++ ", ")) := by
  obtain ⟨h1, h2, h3, h4⟩ := getFlytePropellerContainer_char pod
  refine ⟨⟨fun ⟨k, hk⟩ => (h2 k hk).1, h1⟩, fun k hk => ⟨(h2 k hk).2, ?_⟩, ?_⟩
  · intro j c hj hc
    exact h3 k j c hk hj hc
  · intro n hn hne
    subst hn
    exact h4 hne

/-- C9: for `1 ≤ podCount ≤ 32`, `0 ≤ podIndex < podCount` and a pod spec whose only
flytepropeller container, at index `k`, has the argument list `A`, the call
`UpdatePodSpec` of the consistent-hashing strategy returns no error and leaves that
container with the arguments `A` followed by the pairs
`--propeller.include-shard-label`, `decimal t` for `t = start, ..., end - 1` in
ascending order, `(start, end)` being `computeKeyRange 32 podCount podIndex`; these are
`2 * (end - start)` strings. -/
theorem consistentHashing_updatePodSpec (c : ConsistentHashingShardStrategy)
    (pod : PodSpec) (podIndex : Int) (k : Nat) (container : Container)
    (h1 : 1 ≤ c.podCount) (h32 : c.podCount ≤ 32)
    (h0 : 0 ≤ podIndex) (hi : podIndex < c.podCount)
    (hone : pod.Containers.countP
      (fun x => decide (x.Command.head? = some "flytepropeller")) = 1)
    (hk : pod.Containers[k]? = some container)
    (hfp : container.Command.head? = some "flytepropeller") :
    ∃ startKey endKey : Int,
      computeKeyRange 32 c.podCount podIndex = some (startKey, endKey)
        ∧ c.UpdatePodSpec pod podIndex
            = some ({ Containers := pod.Containers.set k
                        { container with
                          Args := container.Args
                            ++ (List.range (endKey - startKey).toNat).flatMap
                                (fun j => ["--propeller.include-shard-label",
                                  fmtD (startKey + j)]) } },
                none)
        ∧ ((List.range (endKey - startKey).toNat).flatMap
              (fun j => ["--propeller.include-shard-label", fmtD (startKey + j)])).length
            = 2 * (endKey - startKey).toNat := by
  obtain ⟨g1, _, g3, _⟩ := getFlytePropellerContainer_char pod
  obtain ⟨k0, hk0⟩ := g1 hone
  have hkk : k = k0 := g3 k0 k container hk0 hk hfp
  subst hkk
  have hr := computeKeyRange_eq c.podCount podIndex h1 h32 h0 (by omega)
  refine ⟨_, _, hr, ?_, shardLabelArgs_length _ _⟩
  unfold ConsistentHashingShardStrategy.UpdatePodSpec
  simp only [hk0, hk, ConsistentHashingKeyspaceSize, hr]
  rw [appendShardLabels_eq _ _ _ _ rfl]
  rfl

/-- Witness of C9: five replicas, replica 2 (tokens 14..19), and a pod with a sidecar
and one flytepropeller container. -/
theorem consistentHashing_updatePodSpec_witness :
    ∃ startKey endKey : Int,
      computeKeyRange 32 5 2 = some (startKey, endKey)
        ∧ ConsistentHashingShardStrategy.UpdatePodSpec ⟨5⟩
            ⟨[⟨"sidecar", "envoy", ["envoy"], []⟩,
              ⟨"propeller", "flytepropeller:v1", ["flytepropeller"], ["--config", "x"]⟩]⟩ 2
            = some ({ Containers :=
                        ([⟨"sidecar", "envoy", ["envoy"], []⟩,
                          ⟨"propeller", "flytepropeller:v1", ["flytepropeller"],
                            ["--config", "x"]⟩] : List Container).set 1
                        { (⟨"propeller", "flytepropeller:v1", ["flytepropeller"],
                            ["--config", "x"]⟩ : Container) with
                          Args := ["--config", "x"]
                            ++ (List.range (endKey - startKey).toNat).flatMap
                                (fun j => ["--propeller.include-shard-label",
                                  fmtD (startKey + j)]) } },
                none)
        ∧ ((List.range (endKey - startKey).toNat).flatMap
              (fun j => ["--propeller.include-shard-label", fmtD (startKey + j)])).length
            = 2 * (endKey - startKey).toNat :=
  consistentHashing_updatePodSpec ⟨5⟩
    ⟨[⟨"sidecar", "envoy", ["envoy"], []⟩,
      ⟨"propeller", "flytepropeller:v1", ["flytepropeller"], ["--config", "x"]⟩]⟩ 2 1
    ⟨"propeller", "flytepropeller:v1", ["flytepropeller"], ["--config", "x"]⟩
    (by decide) (by decide) (by decide) (by decide) (by decide) rfl rfl

/-- C10: for a namespace strategy with groups `G`, `0 ≤ podIndex < len(G)` and a pod
spec whose only flytepropeller container, at index `k`, has the argument list `A`, the
call `UpdatePodSpec` returns no error and leaves that container with the arguments `A`
followed by the pairs `--propeller.include-namespace-label`, `ns` for each `ns` of
`G[podIndex]` in the group's order; these are `2 * len(G[podIndex])` strings. -/
theorem namespace_updatePodSpec (n : NamespaceShardStrategy)
    (pod : PodSpec) (podIndex : Int) (k : Nat) (container : Container)
    (h0 : 0 ≤ podIndex) (hi : podIndex < (n.namespaceReplicas.length : Int))
    (hone : pod.Containers.countP
      (fun x => decide (x.Command.head? = some "flytepropeller")) = 1)
    (hk : pod.Containers[k]? = some container)
    (hfp : container.Command.head? = some "flytepropeller") :
    ∃ group : List String,
      n.namespaceReplicas[podIndex.toNat]? = some group
        ∧ n.UpdatePodSpec pod podIndex
            = some ({ Containers := pod.Containers.set k
                        { container with
                          Args := container.Args
                            ++ group.flatMap
                                (fun ns => ["--propeller.include-namespace-label", ns]) } },
                none)
        ∧ (group.flatMap
              (fun ns => ["--propeller.include-namespace-label", ns])).length
            = 2 * group.length := by
  obtain ⟨g1, _, g3, _⟩ := getFlytePropellerContainer_char pod
  obtain ⟨k0, hk0⟩ := g1 hone
  have hkk : k = k0 := g3 k0 k container hk0 hk hfp
  subst hkk
  have hlt : podIndex.toNat < n.namespaceReplicas.length := by omega
  refine ⟨n.namespaceReplicas[podIndex.toNat], List.getElem?_eq_getElem hlt, ?_,
    namespaceLabelArgs_length _⟩
  unfold NamespaceShardStrategy.UpdatePodSpec
  have hcond : ¬ (podIndex < 0 ∨ (n.namespaceReplicas.length : Int) ≤ podIndex) := by omega
  simp only [hk0, hk, if_neg hcond]
  rw [appendNamespaceLabels_eq, List.getD_eq_getElem _ _ hlt]
  rfl

/-- Witness of C10: the groups `[[ns-a], [ns-b, ns-c]]` and replica 1, whose pod
receives the pair of `ns-b` and then the pair of `ns-c`. -/
theorem namespace_updatePodSpec_witness :
    ∃ group : List String,
      ([["ns-a"], ["ns-b", "ns-c"]] : List (List String))[(1 : Int).toNat]? = some group
        ∧ NamespaceShardStrategy.UpdatePodSpec ⟨[["ns-a"], ["ns-b", "ns-c"]]⟩
            ⟨[⟨"propeller", "flytepropeller:v1", ["flytepropeller", "run"], ["--v", "3"]⟩]⟩ 1
            = some ({ Containers :=
                        ([⟨"propeller", "flytepropeller:v1", ["flytepropeller", "run"],
                            ["--v", "3"]⟩] : List Container).set 0
                        { (⟨"propeller", "flytepropeller:v1", ["flytepropeller", "run"],
                            ["--v", "3"]⟩ : Container) with
                          Args := ["--v", "3"]
                            ++ group.flatMap
                                (fun ns => ["--propeller.include-namespace-label", ns]) } },
                none)
        ∧ (group.flatMap
              (fun ns => ["--propeller.include-namespace-label", ns])).length
            = 2 * group.length :=
  namespace_updatePodSpec ⟨[["ns-a"], ["ns-b", "ns-c"]]⟩
    ⟨[⟨"propeller", "flytepropeller:v1", ["flytepropeller", "run"], ["--v", "3"]⟩]⟩ 1 0
    ⟨"propeller", "flytepropeller:v1", ["flytepropeller", "run"], ["--v", "3"]⟩
    (by decide) (by decide) (by decide) rfl rfl

/-- C14: for a strategy of either kind made by the factory, a replica index below its
pod count and a pod spec whose only flytepropeller container, at index `k`, has the
argument list `A`, a first `UpdatePodSpec` succeeds and leaves the arguments `A ++ X`
with `X` not empty, and a second call with the same index on the resulting pod spec
succeeds and leaves `A ++ X ++ X`. -/
theorem updatePodSpec_twice_duplicates (cfg : ShardConfig) (st : ShardStrategy)
    (hst : NewShardStrategy cfg = .ok st) (pod : PodSpec) (podIndex : Int)
    (k : Nat) (container : Container)
    (h0 : 0 ≤ podIndex) (hi : podIndex < st.GetPodCount.1)
    (hone : pod.Containers.countP
      (fun x => decide (x.Command.head? = some "flytepropeller")) = 1)
    (hk : pod.Containers[k]? = some container)
    (hfp : container.Command.head? = some "flytepropeller") :
    ∃ (X : List String) (pod1 pod2 : PodSpec), X ≠ []
      ∧ st.UpdatePodSpec pod podIndex = some (pod1, none)
      ∧ pod1.Containers[k]? = some { container with Args := container.Args ++ X }
      ∧ st.UpdatePodSpec pod1 podIndex = some (pod2, none)
      ∧ pod2.Containers[k]? = some { container with Args := container.Args ++ X ++ X } := by
  have hget := getFlytePropellerContainer_of_one pod k container hone hk hfp
  have hlt : k < pod.Containers.length := (List.getElem?_eq_some.mp hk).1
  have hfirst := updatePodSpec_of_ok cfg st hst pod podIndex h0 hi k container hget hk
  have hk1 : (pod.Containers.set k
      { container with Args := container.Args ++ labelArgs st podIndex })[k]?
        = some { container with Args := container.Args ++ labelArgs st podIndex } :=
    List.getElem?_set_self hlt
  have hone1 : (pod.Containers.set k
      { container with Args := container.Args ++ labelArgs st podIndex }).countP
        (fun x => decide (x.Command.head? = some "flytepropeller")) = 1 := by
    exact (countP_set_same_command pod.Containers k container
      { container with Args := container.Args ++ labelArgs st podIndex } hk rfl).trans hone
  have hget1 := getFlytePropellerContainer_of_one
    { Containers := pod.Containers.set k
        { container with Args := container.Args ++ labelArgs st podIndex } }
    k _ hone1 hk1 hfp
  have hsecond := updatePodSpec_of_ok cfg st hst _ podIndex h0 hi k _ hget1 hk1
  refine ⟨labelArgs st podIndex, _, _, labelArgs_ne_nil cfg st hst podIndex h0 hi,
    hfirst, hk1, hsecond, ?_⟩
  simp only [List.set_set]
  exact List.getElem?_set_self hlt

/-- Witness of C14: the namespace strategy of the groups `[ns-a]`, `[ns-b, ns-c]`,
replica 1, and a pod with one flytepropeller container. -/
theorem updatePodSpec_twice_duplicates_witness :
    ∃ (X : List String) (pod1 pod2 : PodSpec), X ≠ []
      ∧ (ShardStrategy.Namespace ⟨[["ns-a"], ["ns-b", "ns-c"]]⟩).UpdatePodSpec
          ⟨[⟨"propeller", "flytepropeller:v1", ["flytepropeller"], ["--v", "3"]⟩]⟩ 1
          = some (pod1, none)
      ∧ pod1.Containers[0]?
          = some { (⟨"propeller", "flytepropeller:v1", ["flytepropeller"],
                      ["--v", "3"]⟩ : Container) with Args := ["--v", "3"] ++ X }
      ∧ (ShardStrategy.Namespace ⟨[["ns-a"], ["ns-b", "ns-c"]]⟩).UpdatePodSpec pod1 1
          = some (pod2, none)
      ∧ pod2.Containers[0]?
          = some { (⟨"propeller", "flytepropeller:v1", ["flytepropeller"],
                      ["--v", "3"]⟩ : Container) with Args := ["--v", "3"] ++ X ++ X } :=
  updatePodSpec_twice_duplicates ⟨"namespace", 0, [⟨["ns-a"]⟩, ⟨["ns-b", "ns-c"]⟩]⟩
    (.Namespace ⟨[["ns-a"], ["ns-b", "ns-c"]]⟩) rfl
    ⟨[⟨"propeller", "flytepropeller:v1", ["flytepropeller"], ["--v", "3"]⟩]⟩ 1 0
    ⟨"propeller", "flytepropeller:v1", ["flytepropeller"], ["--v", "3"]⟩
    (by decide) (by decide) (by decide) rfl rfl

/-- C18, as the code has it: for a strategy of either kind made by the factory, a
replica index below its pod count and a pod spec in memory whose argument slices point
into allocated arrays, `UpdatePodSpec` returns. Either it returns no error, the pod has
exactly one flytepropeller container, the container list keeps its length, every
container at another index keeps all its fields, the flytepropeller container keeps its
name, image and command slice, its new argument list is the previous one followed by
the appended strings, no cell of an array allocated before changes outside the spare
capacity of its previous argument slice, and so every slice that does not reach into
that spare capacity reads as before. Or it returns an error, the number of
flytepropeller containers is not 1, and memory and pod spec are unchanged. -/
theorem updatePodSpec_frame_in_memory (cfg : ShardConfig) (st : ShardStrategy)
    (hst : NewShardStrategy cfg = .ok st) (grow : Nat → Nat → Nat) (h : Heap)
    (pod : PodSpecInMemory) (podIndex : Int)
    (h0 : 0 ≤ podIndex) (hi : podIndex < st.GetPodCount.1)
    (halloc : ∀ c ∈ pod.Containers, c.Args.array < h.next) :
    ∃ (h1 : Heap) (pod1 : PodSpecInMemory) (err : Option String),
      st.UpdatePodSpecInMemory grow h pod podIndex = some (h1, pod1, err)
        ∧ ((err = none
            ∧ (pod.view h).Containers.countP
                (fun x => decide (x.Command.head? = some "flytepropeller")) = 1
            ∧ pod1.Containers.length = pod.Containers.length
            ∧ ∃ (k : Nat) (container : ContainerInMemory) (args1 : StringSlice)
                (X : List String),
                pod.Containers[k]? = some container
                ∧ (h.read container.Command).head? = some "flytepropeller"
                ∧ pod1.Containers[k]? = some { container with Args := args1 }
                ∧ (∀ j : Nat, j ≠ k → pod1.Containers[j]? = pod.Containers[j]?)
                ∧ h1.read args1 = h.read container.Args ++ X
                ∧ (∀ a i : Nat, a < h.next →
                    ¬ (a = container.Args.array
                        ∧ container.Args.offset + container.Args.len ≤ i
                        ∧ i < container.Args.offset + container.Args.cap) →
                    h1.cells a i = h.cells a i)
                ∧ (∀ t : StringSlice, t.array < h.next →
                    (t.array ≠ container.Args.array
                      ∨ t.offset + t.len ≤ container.Args.offset + container.Args.len
                      ∨ container.Args.offset + container.Args.cap ≤ t.offset) →
                    h1.read t = h.read t))
          ∨ ((∃ msg : String, err = some msg)
            ∧ (pod.view h).Containers.countP
                (fun x => decide (x.Command.head? = some "flytepropeller")) ≠ 1
            ∧ h1 = h ∧ pod1 = pod)) := by
  obtain ⟨g1, g2, _, g4⟩ := getFlytePropellerContainer_char (pod.view h)
  by_cases hone : (pod.view h).Containers.countP
      (fun x => decide (x.Command.head? = some "flytepropeller")) = 1
  · obtain ⟨k, hget⟩ := g1 hone
    obtain ⟨_, vc, hvk, hfp⟩ := g2 k hget
    rw [view_getElem?] at hvk
    obtain ⟨container, hk, hvc⟩ := Option.map_eq_some'.mp hvk
    subst hvc
    have hlt : k < pod.Containers.length := (List.getElem?_eq_some.mp hk).1
    have ha := halloc container (List.getElem?_mem hk)
    obtain ⟨h1, args1, hrun, inv⟩ :=
      updatePodSpecInMemory_of_ok cfg st hst grow h pod podIndex h0 hi k container hget hk ha
    refine ⟨h1, _, none, hrun, Or.inl ⟨rfl, hone, by simp, k, container, args1,
      labelArgs st podIndex, hk, hfp, List.getElem?_set_self hlt, ?_, inv.read_eq, inv.frame,
      fun t ht hd => inv.read_of_disjoint t ht hd⟩⟩
    intro j hj
    exact List.getElem?_set_ne (Ne.symm hj)
  · exact ⟨h, pod, _, updatePodSpecInMemory_of_error st grow h pod podIndex _ (g4 hone),
      Or.inr ⟨⟨_, rfl⟩, hone, rfl, rfl⟩⟩

/-- Witness of the amended C18: the strategy of five replicas, replica 2, on the pod
`separateArraysPod`. -/
theorem updatePodSpec_frame_in_memory_witness :
    ∃ (h1 : Heap) (pod1 : PodSpecInMemory) (err : Option String),
      (ShardStrategy.ConsistentHashing ⟨5⟩).UpdatePodSpecInMemory (fun _ needed => 2 * needed)
          separateArraysHeap separateArraysPod 2 = some (h1, pod1, err)
        ∧ ((err = none
            ∧ (separateArraysPod.view separateArraysHeap).Containers.countP
                (fun x => decide (x.Command.head? = some "flytepropeller")) = 1
            ∧ pod1.Containers.length = separateArraysPod.Containers.length
            ∧ ∃ (k : Nat) (container : ContainerInMemory) (args1 : StringSlice)
                (X : List String),
                separateArraysPod.Containers[k]? = some container
                ∧ (separateArraysHeap.read container.Command).head? = some "flytepropeller"
                ∧ pod1.Containers[k]? = some { container with Args := args1 }
                ∧ (∀ j : Nat, j ≠ k → pod1.Containers[j]? = separateArraysPod.Containers[j]?)
                ∧ h1.read args1 = separateArraysHeap.read container.Args ++ X
                ∧ (∀ a i : Nat, a < separateArraysHeap.next →
                    ¬ (a = container.Args.array
                        ∧ container.Args.offset + container.Args.len ≤ i
                        ∧ i < container.Args.offset + container.Args.cap) →
                    h1.cells a i = separateArraysHeap.cells a i)
                ∧ (∀ t : StringSlice, t.array < separateArraysHeap.next →
                    (t.array ≠ container.Args.array
                      ∨ t.offset + t.len ≤ container.Args.offset + container.Args.len
                      ∨ container.Args.offset + container.Args.cap ≤ t.offset) →
                    h1.read t = separateArraysHeap.read t))
          ∨ ((∃ msg : String, err = some msg)
            ∧ (separateArraysPod.view separateArraysHeap).Containers.countP
                (fun x => decide (x.Command.head? = some "flytepropeller")) ≠ 1
            ∧ h1 = separateArraysHeap ∧ pod1 = separateArraysPod)) :=
  updatePodSpec_frame_in_memory ⟨"consistent-hashing", 5, []⟩ (.ConsistentHashing ⟨5⟩) rfl
    (fun _ needed => 2 * needed) separateArraysHeap separateArraysPod 2
    (by decide) (by decide) (by decide)

/-- Counterexample to C18 as stated: a sidecar whose arguments are the first four
elements of an array of sixteen and a flytepropeller container whose arguments are the
first two elements of the same array. `UpdatePodSpec` of the namespace strategy for
replica 1 succeeds and writes the first label pair over elements 2 and 3, so the
arguments of the sidecar change from `--v 3 x y` to
`--v 3 --propeller.include-namespace-label ns-b`. -/
theorem updatePodSpec_changes_sidecar_args :
    ∃ (h1 : Heap) (pod1 : PodSpecInMemory),
      (ShardStrategy.Namespace ⟨[["ns-a"], ["ns-b", "ns-c"]]⟩).UpdatePodSpecInMemory
          (fun _ needed => 2 * needed)
          { cells := fun a i =>
              if a = 0 then ["--v", "3", "x", "y"].getD i ""
              else if a = 1 then ["envoy"].getD i ""
              else if a = 2 then ["flytepropeller"].getD i ""
              else ""
            next := 3 }
          ⟨[⟨"sidecar", "envoy", ⟨1, 0, 1, 1⟩, ⟨0, 0, 4, 16⟩⟩,
            ⟨"propeller", "flytepropeller:v1", ⟨2, 0, 1, 1⟩, ⟨0, 0, 2, 16⟩⟩]⟩ 1
        = some (h1, pod1, none)
      ∧ Heap.read
          { cells := fun a i =>
              if a = 0 then ["--v", "3", "x", "y"].getD i ""
              else if a = 1 then ["envoy"].getD i ""
              else if a = 2 then ["flytepropeller"].getD i ""
              else ""
            next := 3 } ⟨0, 0, 4, 16⟩ = ["--v", "3", "x", "y"]
      ∧ pod1.Containers[0]? = some ⟨"sidecar", "envoy", ⟨1, 0, 1, 1⟩, ⟨0, 0, 4, 16⟩⟩
      ∧ h1.read ⟨0, 0, 4, 16⟩ = ["--v", "3", "--propeller.include-namespace-label", "ns-b"]
      ∧ (pod1.view h1).Containers[0]?
          = some ⟨"sidecar", "envoy", ["envoy"],
              ["--v", "3", "--propeller.include-namespace-label", "ns-b"]⟩ :=
  ⟨_, _, rfl, rfl, rfl, rfl, rfl⟩

end Manager

namespace Task

/-! ## The catalog cache check -/

/-- C19, evaluated on the code: for a discoverable task whose template is read without
error, when the catalog returns a `nil` response together with a `nil` error,
`CheckCatalogCache` counts a catalog failure and returns `false` with a `nil` error:
`errors.Wrapf` of a `nil` error is `nil`. -/
theorem checkCatalogCache_nil_response_returns_no_error {ρ : Type} (id version : String)
    (iface : TypedInterface) (put : ρ → Option GoError) :
    CheckCatalogCache
        (some ⟨some id, some ⟨true, version⟩, some iface⟩, none)
        (fun _ => ((none : Option ρ), none)) put
      = some (false, none, [Metric.catalogGetFailureCount]) := by
  rfl

end Task

namespace Webhook

/-! ## Paths, maps and trimming -/

theorem splitOnSlash_ne_nil (a : List Char) : splitOnSlash a ≠ [] := by
  cases a with
  | nil => simp [splitOnSlash]
  | cons c a =>
    rw [splitOnSlash]
    split
    · simp
    · split <;> simp

/-- Splitting at a slash splits the list of elements. -/
theorem splitOnSlash_append (a b : List Char) :
    splitOnSlash (a ++ '/' :: b) = splitOnSlash a ++ splitOnSlash b := by
  induction a with
  | nil => simp [splitOnSlash]
  | cons c a ih =>
    rw [List.cons_append, splitOnSlash, splitOnSlash, ih]
    by_cases hc : c = '/'
    · simp [hc]
    · rw [if_neg hc, if_neg hc]
      cases hs : splitOnSlash a with
      | nil => exact absurd hs (splitOnSlash_ne_nil a)
      | cons e es => simp

theorem joinWithSlash_cons_cons (c : Char) (e : List Char) (es : List (List Char)) :
    joinWithSlash ((c :: e) :: es) = c :: joinWithSlash (e :: es) := by
  cases es <;> simp [joinWithSlash]

/-- Joining the elements of a path by slashes gives the path back. -/
theorem joinWithSlash_splitOnSlash (a : List Char) : joinWithSlash (splitOnSlash a) = a := by
  induction a with
  | nil => simp [splitOnSlash, joinWithSlash]
  | cons c a ih =>
    rw [splitOnSlash]
    cases hs : splitOnSlash a with
    | nil => exact absurd hs (splitOnSlash_ne_nil a)
    | cons e es =>
      rw [hs] at ih
      by_cases hc : c = '/'
      · rw [if_pos hc]
        simp [joinWithSlash, ih, hc]
      · rw [if_neg hc]
        simp only [joinWithSlash_cons_cons, ih]

/-- Elements that are neither empty nor `.` nor `..` are all written, in order. -/
theorem cleanElements_of_plain (rooted : Bool) (elements out : List (List Char)) (dotdot : Nat)
    (h : ∀ e ∈ elements, e ≠ [] ∧ e ≠ ['.'] ∧ e ≠ ['.', '.']) :
    cleanElements rooted elements out dotdot = out ++ elements := by
  induction elements generalizing out with
  | nil => simp [cleanElements]
  | cons e es ih =>
    obtain ⟨h1, h2, h3⟩ := h e (List.mem_cons_self _ _)
    rw [cleanElements, if_neg h1, if_neg h2, if_neg h3,
      ih _ (fun x hx => h x (List.mem_cons_of_mem _ hx))]
    simp

/-- For a group none of whose elements between slashes is empty, `.` or `..`, the
joined mount path is the prefix followed by the group as it is. -/
theorem filepathJoin_prefix_of_plain (group : String)
    (h : ∀ e ∈ splitOnSlash group.data, e ≠ [] ∧ e ≠ ['.'] ∧ e ≠ ['.', '.']) :
    filepathJoin (AWSSecretMountPathPrefix ++ [group]) = "/etc/flyte/secrets/" ++ group := by
  have hd : ("/".intercalate (AWSSecretMountPathPrefix ++ [group])).data
      = '/' :: ("/etc/flyte/secrets".data ++ '/' :: group.data) := by
    simp [AWSSecretMountPathPrefix, String.intercalate, String.intercalate.go]
  have hj : filepathJoin (AWSSecretMountPathPrefix ++ [group])
      = filepathClean ("/".intercalate (AWSSecretMountPathPrefix ++ [group])) := by
    simp [filepathJoin, AWSSecretMountPathPrefix, List.dropWhile]
  rw [hj, filepathClean, hd]
  simp only [if_true]
  rw [splitOnSlash_append]
  have hs : splitOnSlash "/etc/flyte/secrets".data
      = [[], ['e', 't', 'c'], ['f', 'l', 'y', 't', 'e'],
          ['s', 'e', 'c', 'r', 'e', 't', 's']] := by
    decide
  rw [hs]
  obtain ⟨e, es, hes⟩ : ∃ e es, splitOnSlash group.data = e :: es := by
    cases hs2 : splitOnSlash group.data with
    | nil => exact absurd hs2 (splitOnSlash_ne_nil _)
    | cons e es => exact ⟨e, es, rfl⟩
  have hjoin := joinWithSlash_splitOnSlash group.data
  rw [hes] at h hjoin ⊢
  have hc : cleanElements true
      ([[], ['e', 't', 'c'], ['f', 'l', 'y', 't', 'e'], ['s', 'e', 'c', 'r', 'e', 't', 's']]
        ++ e :: es) [] 0
      = [['e', 't', 'c'], ['f', 'l', 'y', 't', 'e'], ['s', 'e', 'c', 'r', 'e', 't', 's']]
        ++ e :: es := by
    simp only [List.cons_append, List.nil_append]
    rw [cleanElements, if_pos rfl, cleanElements, if_neg (by decide), if_neg (by decide),
      if_neg (by decide), cleanElements, if_neg (by decide), if_neg (by decide),
      if_neg (by decide), cleanElements, if_neg (by decide), if_neg (by decide),
      if_neg (by decide), cleanElements_of_plain _ _ _ _ h]
    simp
  rw [hc]
  apply String.ext
  simp only [List.cons_append, List.nil_append, joinWithSlash, String.data_append, hjoin]

theorem mapGet_filter_ne (m : List (String × String)) (key other : String)
    (h : other ≠ key) :
    mapGet (m.filter (fun entry => entry.1 ≠ key)) other = mapGet m other := by
  induction m with
  | nil => rfl
  | cons a rest ih =>
    obtain ⟨k, v⟩ := a
    by_cases hk : k = key
    · have hne : ¬ k = other := fun h2 => h (h2.symm.trans hk)
      rw [List.filter_cons_of_neg (by simp [hk]), ih, mapGet, if_neg hne]
    · rw [List.filter_cons_of_pos (by simp [hk]), mapGet, mapGet, ih]

/-- After `m[key] = value` the map holds `value` under `key`. -/
theorem mapGet_mapSet_self (m : List (String × String)) (key value : String) :
    mapGet (mapSet m key value) key = some value := by
  rw [mapSet, mapGet, if_pos rfl]

/-- The assignment `m[key] = value` leaves the other keys alone. -/
theorem mapGet_mapSet_ne (m : List (String × String)) (key value other : String)
    (h : other ≠ key) :
    mapGet (mapSet m key value) other = mapGet m other := by
  rw [mapSet, mapGet, if_neg (Ne.symm h), mapGet_filter_ne m key other h]

theorem updateEnvVarsLoop_annotations (d : Declarations) (p : Pod) (envVars : List EnvVar) :
    (updateEnvVarsLoop d p envVars).Annotations = p.Annotations := by
  induction envVars generalizing p with
  | nil => rfl
  | cons e rest ih => rw [updateEnvVarsLoop, ih]

theorem string_length_eq_zero_iff (s : String) : s.length = 0 ↔ s = "" := by
  constructor
  · intro h
    apply String.ext
    have hl : s.data.length = 0 := h
    rw [List.length_eq_zero.mp hl]
  · rintro rfl
    rfl

/-- What `Inject` returns when the secret has a group and a key and asks for a file
mount, on a pod with an annotation map. -/
theorem inject_of_file_mount (d : Declarations) (secret : Secret) (p : Pod)
    (annotations : List (String × String)) (hp : p.Annotations = some annotations)
    (hg : secret.Group ≠ "") (hk : secret.Key ≠ "")
    (hm : secret.MountRequirement = Secret_ANY ∨ secret.MountRequirement = Secret_FILE) :
    ∃ r : InjectResult, Inject d secret p = some r
      ∧ r.injected = true ∧ r.err = none ∧ r.returnsPod = true
      ∧ ∃ a : List (String × String), r.pod.Annotations = some a
          ∧ mapGet a AWSSecretArnAnnotation = some (formatAWSSecretArn secret)
          ∧ mapGet a AWSSecretMountPathAnnotation = some (formatAWSSecretMount secret)
          ∧ mapGet a AWSSecretFileNameAnnotation = some secret.Key := by
  have h1 : ¬ (secret.Group.length = 0 ∨ secret.Key.length = 0) := by
    rw [string_length_eq_zero_iff, string_length_eq_zero_iff]
    tauto
  refine ⟨_, by rw [Inject, if_neg h1, if_pos hm, hp], rfl, rfl, rfl, ?_⟩
  refine ⟨_, updateEnvVarsLoop_annotations _ _ _, ?_, ?_, ?_⟩
  · rw [mapGet_mapSet_ne _ _ _ _ (by decide), mapGet_mapSet_ne _ _ _ _ (by decide),
      mapGet_mapSet_self]
  · rw [mapGet_mapSet_ne _ _ _ _ (by decide), mapGet_mapSet_self]
  · rw [mapGet_mapSet_self]

/-- What `Inject` returns in the other cases: no injection, an error, the pod as it
was. -/
theorem inject_of_other (d : Declarations) (secret : Secret) (p : Pod)
    (h : ¬ (secret.Group ≠ "" ∧ secret.Key ≠ ""
      ∧ (secret.MountRequirement = Secret_ANY ∨ secret.MountRequirement = Secret_FILE))) :
    ∃ r : InjectResult, Inject d secret p = some r
      ∧ r.injected = false ∧ (∃ msg : String, r.err = some msg) ∧ r.pod = p := by
  by_cases h1 : secret.Group.length = 0 ∨ secret.Key.length = 0
  · exact ⟨_, by rw [Inject, if_pos h1], rfl, ⟨_, rfl⟩, rfl⟩
  · have hm : ¬ (secret.MountRequirement = Secret_ANY
        ∨ secret.MountRequirement = Secret_FILE) := by
      intro hm
      apply h
      rw [string_length_eq_zero_iff, string_length_eq_zero_iff] at h1
      tauto
    exact ⟨_, by rw [Inject, if_neg h1, if_neg hm], rfl, ⟨_, rfl⟩, rfl⟩

/-- `strings.TrimRight(s, ":")` is `s` without a run of colons at its end, and its last
character is not a colon. -/
theorem stringsTrimRight_colon (s : String) :
    ∃ n : Nat, s.data = (stringsTrimRight s ":").data ++ List.replicate n ':'
      ∧ (stringsTrimRight s ":").data.getLast? ≠ some ':' := by
  have hsplit := List.takeWhile_append_dropWhile (fun c => ":".data.contains c) s.data.reverse
  have hall : ∀ c ∈ (s.data.reverse.takeWhile (fun c => ":".data.contains c)), c = ':' := by
    intro c hc
    have h := List.all_takeWhile (l := s.data.reverse) (p := fun c => ":".data.contains c)
    rw [List.all_eq_true] at h
    have hc2 := h c hc
    simpa using hc2
  refine ⟨(s.data.reverse.takeWhile (fun c => ":".data.contains c)).length, ?_, ?_⟩
  · have hrep : s.data.reverse.takeWhile (fun c => ":".data.contains c)
        = List.replicate (s.data.reverse.takeWhile (fun c => ":".data.contains c)).length ':' :=
      List.eq_replicate_iff.mpr ⟨rfl, hall⟩
    have hrev : (s.data.reverse.takeWhile (fun c => ":".data.contains c)).reverse
        = List.replicate (s.data.reverse.takeWhile (fun c => ":".data.contains c)).length ':' := by
      rw [hrep, List.reverse_replicate, List.length_replicate]
    have h2 := congrArg List.reverse hsplit
    rw [List.reverse_append, List.reverse_reverse, hrev] at h2
    exact h2.symm
  · show ((s.data.reverse.dropWhile (fun c => ":".data.contains c)).reverse).getLast? ≠ some ':'
    rw [List.getLast?_reverse]
    intro h
    have h3 := List.head?_dropWhile_not (fun c => ":".data.contains c) s.data.reverse
    rw [h] at h3
    simp at h3

/-- `strings.TrimLeft(s, ":")` is `s` without a run of colons at its start, and its
first character is not a colon. -/
theorem stringsTrimLeft_colon (s : String) :
    ∃ n : Nat, s.data = List.replicate n ':' ++ (stringsTrimLeft s ":").data
      ∧ (stringsTrimLeft s ":").data.head? ≠ some ':' := by
  have hsplit := List.takeWhile_append_dropWhile (fun c => ":".data.contains c) s.data
  have hall : ∀ c ∈ (s.data.takeWhile (fun c => ":".data.contains c)), c = ':' := by
    intro c hc
    have h := List.all_takeWhile (l := s.data) (p := fun c => ":".data.contains c)
    rw [List.all_eq_true] at h
    have hc2 := h c hc
    simpa using hc2
  refine ⟨(s.data.takeWhile (fun c => ":".data.contains c)).length, ?_, ?_⟩
  · have hrep : s.data.takeWhile (fun c => ":".data.contains c)
        = List.replicate (s.data.takeWhile (fun c => ":".data.contains c)).length ':' :=
      List.eq_replicate_iff.mpr ⟨rfl, hall⟩
    rw [← hrep]
    exact hsplit.symm
  · show (s.data.dropWhile (fun c => ":".data.contains c)).head? ≠ some ':'
    intro h
    have h3 := List.head?_dropWhile_not (fun c => ":".data.contains c) s.data
    rw [h] at h3
    simp at h3

/-! ## The injector -/

/-- C20, as the code has it: on a pod with an annotation map, `Inject` returns
`injected = true` with a `nil` error if and only if the secret's group and key are both
non-empty and its mount requirement is ANY or FILE. In that case the annotations of the
pod carry, under `secret-arn`, the group without its trailing colons, a colon and the
key without its leading colons; under `mount-path`, the path
`filepath.Join("/", "etc", "flyte", "secrets", Group)`, which is
`/etc/flyte/secrets/<Group>` when no element of the group between slashes is empty, `.`
or `..`; and under `secret-filename` the key. In every other case it returns
`injected = false` with an error and leaves the pod as it was. -/
theorem inject_file_mount_iff (d : Declarations) (secret : Secret) (p : Pod)
    (annotations : List (String × String)) (hp : p.Annotations = some annotations) :
    ∃ r : InjectResult, Inject d secret p = some r
      ∧ ((r.injected = true ∧ r.err = none)
          ↔ (secret.Group ≠ "" ∧ secret.Key ≠ ""
              ∧ (secret.MountRequirement = Secret_ANY
                  ∨ secret.MountRequirement = Secret_FILE)))
      ∧ ((secret.Group ≠ "" ∧ secret.Key ≠ ""
            ∧ (secret.MountRequirement = Secret_ANY
                ∨ secret.MountRequirement = Secret_FILE)) →
          ∃ a : List (String × String), r.pod.Annotations = some a
            ∧ mapGet a "secrets.k8s.aws/secret-arn"
                = some (stringsTrimRight secret.Group ":" ++ ":"
                    ++ stringsTrimLeft secret.Key ":")
            ∧ mapGet a "secrets.k8s.aws/mount-path"
                = some (filepathJoin ["/", "etc", "flyte", "secrets", secret.Group])
            ∧ ((∀ e ∈ splitOnSlash secret.Group.data, e ≠ [] ∧ e ≠ ['.'] ∧ e ≠ ['.', '.']) →
                filepathJoin ["/", "etc", "flyte", "secrets", secret.Group]
                  = "/etc/flyte/secrets/" ++ secret.Group)
            ∧ mapGet a "secrets.k8s.aws/secret-filename" = some secret.Key)
      ∧ (¬ (secret.Group ≠ "" ∧ secret.Key ≠ ""
            ∧ (secret.MountRequirement = Secret_ANY
                ∨ secret.MountRequirement = Secret_FILE)) →
          r.injected = false ∧ (∃ msg : String, r.err = some msg) ∧ r.pod = p) := by
  by_cases hc : secret.Group ≠ "" ∧ secret.Key ≠ ""
      ∧ (secret.MountRequirement = Secret_ANY ∨ secret.MountRequirement = Secret_FILE)
  · obtain ⟨r, hr, hi, he, _, a, ha, h1, h2, h3⟩ :=
      inject_of_file_mount d secret p annotations hp hc.1 hc.2.1 hc.2.2
    refine ⟨r, hr, ⟨fun _ => hc, fun _ => ⟨hi, he⟩⟩, fun _ => ⟨a, ha, h1, h2, ?_, h3⟩,
      fun h => absurd hc h⟩
    exact filepathJoin_prefix_of_plain secret.Group
  · obtain ⟨r, hr, hi, he, hpod⟩ := inject_of_other d secret p hc
    refine ⟨r, hr, ⟨fun h => ?_, fun h => absurd h hc⟩, fun h => absurd h hc,
      fun _ => ⟨hi, he, hpod⟩⟩
    rw [hi] at h
    exact absurd h.1 (by decide)

/-- Witness of the amended C20: a secret with group `arn:aws:secret:` and key `:db`, to
be mounted as a file, on a pod with one annotation. -/
theorem inject_file_mount_iff_witness :
    ∃ r : InjectResult,
      Inject ⟨fun cs _ => cs, "FLYTE_SECRETS_DEFAULT_DIR", "FLYTE_SECRETS_FILE_PREFIX",
          fun s => s.Key, fun n => toString n⟩
        ⟨"arn:aws:secret:", "", ":db", Secret_FILE⟩ ⟨some [("owner", "flyte")], [], []⟩ = some r
      ∧ ((r.injected = true ∧ r.err = none)
          ↔ ("arn:aws:secret:" ≠ "" ∧ ":db" ≠ ""
              ∧ (Secret_FILE = Secret_ANY ∨ Secret_FILE = Secret_FILE)))
      ∧ (("arn:aws:secret:" ≠ "" ∧ ":db" ≠ ""
            ∧ (Secret_FILE = Secret_ANY ∨ Secret_FILE = Secret_FILE)) →
          ∃ a : List (String × String), r.pod.Annotations = some a
            ∧ mapGet a "secrets.k8s.aws/secret-arn"
                = some (stringsTrimRight "arn:aws:secret:" ":" ++ ":"
                    ++ stringsTrimLeft ":db" ":")
            ∧ mapGet a "secrets.k8s.aws/mount-path"
                = some (filepathJoin ["/", "etc", "flyte", "secrets", "arn:aws:secret:"])
            ∧ ((∀ e ∈ splitOnSlash "arn:aws:secret:".data,
                  e ≠ [] ∧ e ≠ ['.'] ∧ e ≠ ['.', '.']) →
                filepathJoin ["/", "etc", "flyte", "secrets", "arn:aws:secret:"]
                  = "/etc/flyte/secrets/" ++ "arn:aws:secret:")
            ∧ mapGet a "secrets.k8s.aws/secret-filename" = some ":db")
      ∧ (¬ ("arn:aws:secret:" ≠ "" ∧ ":db" ≠ ""
            ∧ (Secret_FILE = Secret_ANY ∨ Secret_FILE = Secret_FILE)) →
          r.injected = false ∧ (∃ msg : String, r.err = some msg)
            ∧ r.pod = ⟨some [("owner", "flyte")], [], []⟩) :=
  inject_file_mount_iff
    ⟨fun cs _ => cs, "FLYTE_SECRETS_DEFAULT_DIR", "FLYTE_SECRETS_FILE_PREFIX",
      fun s => s.Key, fun n => toString n⟩
    ⟨"arn:aws:secret:", "", ":db", Secret_FILE⟩ ⟨some [("owner", "flyte")], [], []⟩
    [("owner", "flyte")] rfl

/-- Counterexample to C20 as stated: for the group `a/` the injection succeeds and the
`mount-path` annotation is `/etc/flyte/secrets/a`, which is not `/etc/flyte/secrets/`
followed by the group. -/
theorem inject_mount_path_is_cleaned :
    ∃ r : InjectResult,
      Inject ⟨fun cs _ => cs, "FLYTE_SECRETS_DEFAULT_DIR", "FLYTE_SECRETS_FILE_PREFIX",
          fun s => s.Key, fun n => toString n⟩
        ⟨"a/", "", "k", Secret_ANY⟩ ⟨some [], [], []⟩ = some r
      ∧ r.injected = true ∧ r.err = none
      ∧ ∃ a : List (String × String), r.pod.Annotations = some a
          ∧ mapGet a "secrets.k8s.aws/mount-path" = some "/etc/flyte/secrets/a"
          ∧ "/etc/flyte/secrets/a" ≠ "/etc/flyte/secrets/" ++ "a/" :=
  ⟨_, rfl, rfl, rfl, _, rfl, by decide, by decide⟩

end Webhook
